import Mathlib

set_option autoImplicit false

/-!
# Verification of the zuck-agent session/approval core

A shallow embedding, in Lean, of the session state machine, the approval
coordinator, and the diff/risk engine of the zuck-agent orchestration backend
(`src/core/session_manager.py`, `src/core/approval_handler.py`,
`src/utils/diff_generator.py`, `src/core/agent_runtime.py`,
`src/services/agent_orchestrator.py`, `src/api/routes/sessions.py`),
together with theorems settling the specification's claims about them.

Python dictionaries keyed by session id are modelled as association lists,
database commits as functional record updates threaded through an explicit
store, and raised exceptions as `Except` error values (an error return leaves
the threaded store unchanged, mirroring the fact that the Python code raises
before any mutation is committed).
-/

namespace ZuckAgent

/-! ## Core value types (src/core/types.py) -/

/-- `RiskLevel = Literal["low", "medium", "high"]` from src/core/types.py. -/
inductive RiskLevel where
  | low
  | medium
  | high
deriving DecidableEq

/-- `DiffTier = Literal["inline", "truncated"]` from src/core/types.py. -/
inductive DiffTier where
  | inline
  | truncated
deriving DecidableEq

/-- `DiffStats` TypedDict from src/core/types.py: addition/deletion counts. -/
structure DiffStats where
  additions : Nat
  deletions : Nat
deriving DecidableEq

/-- Model of a `tool_input` dict restricted to its string-valued keys
(the session/approval core reads only the string keys `"command"`,
`"file_path"` and `"path"` from it). -/
abbrev ToolInput := List (String × String)

/-- `dict.get(key, default)` on a tool-input dict. -/
def ToolInput.getD (ti : ToolInput) (key dflt : String) : String :=
  match List.lookup key ti with
  | some v => v
  | none => dflt

/-- `dict.get(key)` on a tool-input dict. -/
def ToolInput.get? (ti : ToolInput) (key : String) : Option String :=
  List.lookup key ti

/-- `PendingApproval` TypedDict from src/core/types.py: the structured
pending-approval payload mirrored into `Session.pending_approval`. -/
structure PendingApproval where
  tool_name : String
  tool_input : ToolInput
  tool_use_id : String
  file_path : Option String
  diff : Option String
  diff_stats : Option DiffStats
  risk_level : Option RiskLevel
  diff_tier : DiffTier
  total_bytes : Nat
  total_lines : Nat
  requested_at : String
deriving DecidableEq

/-! ## Session model (src/models/session.py) -/

/-- `SessionStatus` enum from src/models/session.py. -/
inductive SessionStatus where
  | idle
  | running
  | waiting_approval
  | completed
  | error
deriving DecidableEq

/-- The `.value` string of each `SessionStatus` enum member. -/
def SessionStatus.value : SessionStatus → String
  | .idle => "idle"
  | .running => "running"
  | .waiting_approval => "waiting_approval"
  | .completed => "completed"
  | .error => "error"

/-- The `Session` record from src/models/session.py (the columns the core
reads or writes; timestamps are maintained by the persistence layer and
carry no logic, so they are not modelled). The monetary `total_cost_usd`
is modelled as a rational: the session core only copies and adds it. -/
structure Session where
  id : String
  claude_session_id : Option String
  project_id : String
  name : Option String
  status : SessionStatus
  last_prompt : Option String
  pending_approval : Option PendingApproval
  message_count : Nat
  total_cost_usd : Rat
  error_message : Option String
deriving DecidableEq

/-! ## Session manager (src/core/session_manager.py) -/

/-- `VALID_TRANSITIONS` from src/core/session_manager.py: the state-machine
table, from-state to the collection of valid target states. -/
def VALID_TRANSITIONS : SessionStatus → List SessionStatus
  | .idle => [.running]
  | .running => [.waiting_approval, .completed, .error]
  | .waiting_approval => [.running]
  | .completed => [.running]
  | .error => [.running]

/-- Errors raised by `SessionManager` (src/core/exceptions.py). A
`sessionStateError` carries the data the source formats into its message
(`"Invalid state transition: cur -> new. Valid transitions from cur: [...]"`):
the attempted transition and the valid targets. `pendingFromNonRunning` is
the `SessionStateError` raised by `set_pending_approval`, carrying the
offending current state its message names. -/
inductive SessionManagerError where
  | sessionNotFound (session_id : String)
  | sessionStateError (attempted_from attempted_to : SessionStatus)
      (valid_targets : List SessionStatus)
  | pendingFromNonRunning (current : SessionStatus)
  | projectNotFound (project_id : String)
deriving DecidableEq

/-- The persisted session table, keyed by session id. -/
abbrev Store := List (String × Session)

/-- `SessionManager.get_session`: fetch by primary key or raise
`SessionNotFoundError`. -/
def get_session (store : Store) (session_id : String) :
    Except SessionManagerError Session :=
  match List.lookup session_id store with
  | some s => .ok s
  | none => .error (.sessionNotFound session_id)

/-- Committing an updated session record back to the store (the
`db.commit()` of an in-place ORM mutation). -/
def store_write (store : Store) (session_id : String) (s : Session) : Store :=
  store.map (fun p => if p.1 == session_id then (p.1, s) else p)

/-- `SessionManager.update_session_status` from src/core/session_manager.py:
validate the transition against `VALID_TRANSITIONS`, set the status, set or
clear the error message, optionally set the Claude session id (skipped for a
falsy, i.e. empty, string), and clear the pending approval when leaving
WAITING_APPROVAL. On a state error the function raises before any mutation,
so the returned store is the input store. -/
def update_session_status (store : Store) (session_id : String)
    (new_status : SessionStatus) (error_message : Option String)
    (claude_session_id : Option String) :
    Except SessionManagerError Session × Store :=
  match get_session store session_id with
  | .error e => (.error e, store)
  | .ok session =>
      let current_status := session.status
      let valid_targets := VALID_TRANSITIONS current_status
      if valid_targets.contains new_status then
        let s1 : Session := { session with status := new_status }
        let s2 : Session :=
          if new_status = .error then { s1 with error_message := error_message }
          else if new_status = .running then { s1 with error_message := none }
          else s1
        let s3 : Session :=
          match claude_session_id with
          | some cid => if cid = "" then s2 else { s2 with claude_session_id := some cid }
          | none => s2
        let s4 : Session :=
          if current_status = .waiting_approval then { s3 with pending_approval := none }
          else s3
        (.ok s4, store_write store session_id s4)
      else
        (.error (.sessionStateError current_status new_status valid_targets), store)

/-- `SessionManager.set_pending_approval` from src/core/session_manager.py:
requires the session to be RUNNING, then writes the approval payload and the
WAITING_APPROVAL status in one commit. -/
def set_pending_approval (store : Store) (session_id : String)
    (approval_data : PendingApproval) :
    Except SessionManagerError Session × Store :=
  match get_session store session_id with
  | .error e => (.error e, store)
  | .ok session =>
      if session.status = .running then
        let s1 : Session :=
          { session with pending_approval := some approval_data,
                         status := .waiting_approval }
        (.ok s1, store_write store session_id s1)
      else
        (.error (.pendingFromNonRunning session.status), store)

/-- `LAST_PROMPT_MAX_LENGTH` from src/core/constants.py. -/
def LAST_PROMPT_MAX_LENGTH : Nat := 1000

/-- The session-record effect of `SessionManager.add_message`: bump the
message count and, for a user message, update `last_prompt` truncated to
`LAST_PROMPT_MAX_LENGTH` characters. (The appended `Message` row itself has
no bearing on the session invariants.) -/
def add_message (store : Store) (session_id : String) (role content : String) :
    Except SessionManagerError Session × Store :=
  match get_session store session_id with
  | .error e => (.error e, store)
  | .ok session =>
      let s1 : Session := { session with message_count := session.message_count + 1 }
      let s2 : Session :=
        if role = "user" then { s1 with last_prompt := some (content.take LAST_PROMPT_MAX_LENGTH) }
        else s1
      (.ok s2, store_write store session_id s2)

/-- `SessionManager.update_session_cost`: add to the cumulative cost. -/
def update_session_cost (store : Store) (session_id : String) (cost_usd : Rat) :
    Except SessionManagerError Session × Store :=
  match get_session store session_id with
  | .error e => (.error e, store)
  | .ok session =>
      let s1 : Session := { session with total_cost_usd := session.total_cost_usd + cost_usd }
      (.ok s1, store_write store session_id s1)

/-- `SessionManager.complete_session`: optionally add a final cost (skipped
for a falsy value, i.e. `None` or `0.0`), then transition to COMPLETED. -/
def complete_session (store : Store) (session_id : String)
    (final_cost_usd : Option Rat) :
    Except SessionManagerError Session × Store :=
  let store1 :=
    match final_cost_usd with
    | some c => if c = 0 then store else (update_session_cost store session_id c).2
    | none => store
  update_session_status store1 session_id .completed none none

/-- `SessionManager.fail_session`: transition to ERROR with a message. -/
def fail_session (store : Store) (session_id : String) (error_message : String) :
    Except SessionManagerError Session × Store :=
  update_session_status store session_id .error (some error_message) none

/-- `SessionManager.create_session` from src/core/session_manager.py: verify
the project exists, then insert a fresh IDLE session. The generated UUID is
passed in as `new_id`. -/
def create_session (store : Store) (projects : List String) (project_id : String)
    (name : Option String) (initial_prompt : Option String)
    (claude_session_id : Option String) (new_id : String) :
    Except SessionManagerError Session × Store :=
  if projects.contains project_id then
    let s : Session :=
      { id := new_id
        claude_session_id := claude_session_id
        project_id := project_id
        name := name
        status := .idle
        last_prompt := initial_prompt
        pending_approval := none
        message_count := 0
        total_cost_usd := 0
        error_message := none }
    (.ok s, store ++ [(new_id, s)])
  else
    (.error (.projectNotFound project_id), store)

/-- `AgentOrchestrator._ensure_terminal_state` from
src/services/agent_orchestrator.py: after the agent's event stream ends, if
the stored session is still RUNNING, complete it (no final cost); any other
status is left alone. -/
def ensure_terminal_state (store : Store) (session_id : String) :
    Except SessionManagerError Unit × Store :=
  match get_session store session_id with
  | .error e => (.error e, store)
  | .ok session =>
      if session.status = .running then
        let (r, store1) := complete_session store session_id none
        (r.map (fun _ => ()), store1)
      else
        (.ok (), store)

/-! ## Approval rules and glob matching (src/core/approval_handler.py)

The bash auto-approve patterns are matched with Python's `fnmatch.fnmatch`.
The matcher below models `fnmatch.translate` for case-sensitive (POSIX
`normcase`) matching: `*` matches any run of characters, `?` any single
character, `[...]` a character class (leading `!` negates; a `]` directly
after the `[` or the `!` is a literal; `a-b` is a code-point range; an
unterminated `[` is a literal `[`); the whole string must match. A reversed
range (`hi < lo`), which makes CPython raise `re.error`, is modelled as an
empty (never-matching) range. -/

/-- One parsed item of an fnmatch character class. -/
inductive ClassItem where
  | single (c : Char)
  | range (lo hi : Char)
deriving DecidableEq

/-- Parse a class body into items: `a-b` is a range unless the `-` is the
first or last character of the body (then it is a literal), matching the
chunking in `fnmatch.translate`. -/
def parseClassItems : List Char → List ClassItem
  | [] => []
  | [c] => [.single c]
  | [a, '-'] => [.single a, .single '-']
  | a :: '-' :: b :: rest => .range a b :: parseClassItems rest
  | a :: rest => .single a :: parseClassItems rest

/-- Scan for the closing `]` of a character class, returning the body and
the remainder of the pattern. -/
def scanToClose : List Char → Option (List Char × List Char)
  | [] => none
  | c :: rest =>
      if c = ']' then some ([], rest)
      else
        match scanToClose rest with
        | some (body, rest2) => some (c :: body, rest2)
        | none => none

/-- Split a pattern suffix (just after a `[`) into negation flag, class body
and remaining pattern: an optional leading `!` negates, and a `]` directly
after it belongs to the body, as in `fnmatch.translate`. -/
def splitClass (ps : List Char) : Option (Bool × List Char × List Char) :=
  match ps with
  | '!' :: ']' :: tl =>
      match scanToClose tl with
      | some (body, rest) => some (true, ']' :: body, rest)
      | none => none
  | '!' :: tl =>
      match scanToClose tl with
      | some (body, rest) => some (true, body, rest)
      | none => none
  | ']' :: tl =>
      match scanToClose tl with
      | some (body, rest) => some (false, ']' :: body, rest)
      | none => none
  | tl =>
      match scanToClose tl with
      | some (body, rest) => some (false, body, rest)
      | none => none

/-- A single class item matched against a character (code-point order for
ranges). -/
def classItemMatches (c : Char) : ClassItem → Bool
  | .single x => c == x
  | .range lo hi => Nat.ble lo.toNat c.toNat && Nat.ble c.toNat hi.toNat

/-- A whole (possibly negated) class matched against a character. -/
def classMatches (neg : Bool) (items : List ClassItem) (c : Char) : Bool :=
  let m := items.any (classItemMatches c)
  if neg then !m else m

/-- The fnmatch glob matcher, with an explicit recursion-depth budget so the
recursion is structural (and hence computable by the kernel). Every
recursive call strictly decreases `pat.length + s.length` (a class consumes
at least `[x]` from the pattern), so the budget `pat.length + s.length + 1`
supplied by `globMatch` never runs out and the `0` case is unreachable. -/
def globMatchAux : Nat → List Char → List Char → Bool
  | 0, _, _ => false
  | Nat.succ fuel, pat, s =>
      match pat, s with
      | [], [] => true
      | [], _ :: _ => false
      | '*' :: ps, s =>
          globMatchAux fuel ps s ||
            (match s with
             | [] => false
             | _ :: cs => globMatchAux fuel ('*' :: ps) cs)
      | '?' :: ps, s =>
          match s with
          | [] => false
          | _ :: cs => globMatchAux fuel ps cs
      | '[' :: ps, s =>
          match splitClass ps with
          | some (neg, body, rest) =>
              match s with
              | [] => false
              | c :: cs =>
                  classMatches neg (parseClassItems body) c && globMatchAux fuel rest cs
          | none =>
              match s with
              | [] => false
              | c :: cs => c == '[' && globMatchAux fuel ps cs
      | p :: ps, s =>
          match s with
          | [] => false
          | c :: cs => c == p && globMatchAux fuel ps cs

/-- Does the whole string `s` match glob pattern `pat`?
(`fnmatch.translate` anchors the translated regex at both ends.) -/
def globMatch (pat s : List Char) : Bool :=
  globMatchAux (pat.length + s.length + 1) pat s

/-- `fnmatch.fnmatch(name, pattern)` (case-sensitive POSIX `normcase`). -/
def fnmatchPy (name pat : String) : Bool :=
  globMatch pat.data name.data

/-! ## Shell compound-command splitting (src/core/approval_handler.py) -/

/-- Python `str.isspace` characters in the ASCII range (the model of `\s`
and of `str.strip()`; the command strings at stake are ASCII). -/
def isPyWs (c : Char) : Bool :=
  c == ' ' || c == '\t' || c == '\n' || c == '\r' || c == '\x0b' || c == '\x0c'

/-- Python `str.strip()` (ASCII whitespace). -/
def pyStrip (s : String) : String :=
  String.mk (((s.data.dropWhile isPyWs).reverse.dropWhile isPyWs).reverse)

/-- The raw split of `ApprovalRule._SHELL_SPLIT_RE`
(`\s*(?:&&|\|\||[;|])\s*`): cut at every `&&`, `||`, `;` and single `|`.
The regex also absorbs whitespace around each operator; since every caller
strips each segment afterwards, absorbing it into the segment instead
yields the same stripped segments. -/
def shellSplitGo : List Char → List Char → List (List Char)
  | [], acc => [acc.reverse]
  | '&' :: '&' :: rest, acc => acc.reverse :: shellSplitGo rest []
  | '|' :: '|' :: rest, acc => acc.reverse :: shellSplitGo rest []
  | ';' :: rest, acc => acc.reverse :: shellSplitGo rest []
  | '|' :: rest, acc => acc.reverse :: shellSplitGo rest []
  | c :: rest, acc => shellSplitGo rest (c :: acc)

/-! ## Approval rules (src/core/approval_handler.py) -/

/-- The `ApprovalRule` dataclass. -/
structure ApprovalRule where
  tool_name : String
  auto_approve : Bool
  patterns : List String
  description : String
deriving DecidableEq

/-- `ApprovalRule._matches_any_pattern`: a single command segment against
the rule's glob patterns. -/
def ApprovalRule.matchesAnyPattern (r : ApprovalRule) (command : String) : Bool :=
  r.patterns.any (fun pat => fnmatchPy command pat)

/-- The stripped, non-empty segments of a compound command, as
`ApprovalRule.matches_pattern` produces them: split on `&&`, `||`, `;`,
single `|`, strip each segment, drop empties. -/
def shellSegments (command : String) : List String :=
  ((shellSplitGo (pyStrip command).data []).map
    (fun cs => pyStrip (String.mk cs))).filter (fun s => s != "")

/-- `ApprovalRule.matches_pattern`: every segment of the compound command
must match one of the rule's auto-approve patterns. -/
def ApprovalRule.matches_pattern (r : ApprovalRule) (command : String) : Bool :=
  if r.patterns.isEmpty then false
  else
    let segments := shellSegments command
    if segments.isEmpty then false
    else segments.all (fun seg => r.matchesAnyPattern seg)

/-- The `"Read"` entry of `DEFAULT_RULES`. -/
def defaultReadRule : ApprovalRule :=
  { tool_name := "Read", auto_approve := true, patterns := [],
    description := "File reading is always safe" }

/-- The `"Write"` entry of `DEFAULT_RULES`. -/
def defaultWriteRule : ApprovalRule :=
  { tool_name := "Write", auto_approve := false, patterns := [],
    description := "File writing requires approval" }

/-- The `"Bash"` entry of `DEFAULT_RULES`. -/
def defaultBashRule : ApprovalRule :=
  { tool_name := "Bash", auto_approve := false,
    patterns :=
      [ "git status*", "git log*", "git diff*", "git branch*", "git show*",
        "ls*", "pwd", "cat *", "echo *", "head *", "tail *", "wc *",
        "which *", "type *", "npm list*", "npm outdated*", "npm view*",
        "pip list*", "pip show*", "python --version*", "node --version*" ],
    description := "Bash commands require approval unless safe pattern matches" }

/-- `DEFAULT_RULES` from src/core/approval_handler.py. -/
def DEFAULT_RULES : List (String × ApprovalRule) :=
  [ ("Read", defaultReadRule),
    ("Glob",
     { tool_name := "Glob", auto_approve := true, patterns := [],
       description := "File pattern matching is always safe" }),
    ("Grep",
     { tool_name := "Grep", auto_approve := true, patterns := [],
       description := "File content searching is always safe" }),
    ("WebSearch",
     { tool_name := "WebSearch", auto_approve := true, patterns := [],
       description := "Web searching is always safe" }),
    ("WebFetch",
     { tool_name := "WebFetch", auto_approve := true, patterns := [],
       description := "Web fetching is always safe" }),
    ("Write", defaultWriteRule),
    ("Edit",
     { tool_name := "Edit", auto_approve := false, patterns := [],
       description := "File editing requires approval" }),
    ("MultiEdit",
     { tool_name := "MultiEdit", auto_approve := false, patterns := [],
       description := "Multiple file editing requires approval" }),
    ("Bash", defaultBashRule) ]

/-- `ApprovalHandler.requires_approval`: unknown tool → approval;
auto-approve rule → none; Bash with a non-empty pattern list → pattern
check on the `command` input; every other non-auto tool → approval. -/
def requires_approval (rules : List (String × ApprovalRule))
    (tool_name : String) (tool_input : ToolInput) : Bool :=
  match List.lookup tool_name rules with
  | none => true
  | some rule =>
      if rule.auto_approve then false
      else if tool_name == "Bash" && !rule.patterns.isEmpty then
        let command := tool_input.getD "command" ""
        if rule.matches_pattern command then false else true
      else true

/-- `ApprovalHandler.get_file_path` restricted to the string-valued
tool-input model: for Write/Read/Edit, `tool_input.get("file_path") or
tool_input.get("path")` (Python `or`: an empty `file_path` falls through).
The MultiEdit branch reads `edits[0]["file_path"]`, a non-string value
outside this model, and is not modelled. -/
def get_file_path (tool_name : String) (tool_input : ToolInput) : Option String :=
  if tool_name == "Write" || tool_name == "Read" || tool_name == "Edit" then
    match tool_input.get? "file_path" with
    | some v => if v = "" then tool_input.get? "path" else some v
    | none => tool_input.get? "path"
  else none

/-! ## A regex model for the bash risk patterns (src/utils/diff_generator.py)

The risk patterns of `_DANGEROUS_PATTERNS` / `_MEDIUM_RISK_PATTERNS` use
only: literal characters, `.` (any char but newline), the classes `\s`,
`\S`, `[^\s]`, the quantifiers `*` and `+` applied to a single
character-matcher, alternation, and the word boundary `\b`. `Re` below is
exactly that fragment; `reSearch` is `re.Pattern.search` (does any suffix
position start a match?). Character classes are modelled over ASCII
(`\s`, `\w` also match some non-ASCII code points in Python; the commands
at stake are ASCII). -/

/-- The regex fragment used by the risk patterns. `tok p` matches one
character satisfying `p`; `star p`/`plus p` are `p*`/`p+`. -/
inductive Re where
  | eps
  | tok (p : Char → Bool)
  | seq (a b : Re)
  | alt (a b : Re)
  | star (p : Char → Bool)
  | plus (p : Char → Bool)
  | wb

/-- `\s` (ASCII). -/
def wsChar (c : Char) : Bool := isPyWs c

/-- `\w` (ASCII): letters, digits, underscore. -/
def wordChar (c : Char) : Bool :=
  c.isAlpha || c.isDigit || c == '_'

/-- `.` without `re.DOTALL`: any character except a newline. -/
def dotChar (c : Char) : Bool := c != '\n'

/-- Is the word-boundary predicate satisfied between a previous character
(`none` at the start of the string) and the next one (`none` at the end)? -/
def wordOpt : Option Char → Bool
  | none => false
  | some c => wordChar c

/-- `\b` holds where exactly one side is a word character. -/
def isWordBoundary (prev : Option Char) (s : List Char) : Bool :=
  wordOpt prev != wordOpt s.head?

/-- All ways a starred character-matcher can consume a prefix of `s`:
each result is (last consumed character, remaining input). -/
def starPositions (p : Char → Bool) (prev : Option Char) :
    List Char → List (Option Char × List Char)
  | [] => [(prev, [])]
  | c :: cs =>
      (prev, c :: cs) :: (if p c then starPositions p (some c) cs else [])

/-- Run a regex at a fixed position: all (last consumed character,
remaining input) pairs reachable by matching `r` from the head of `s`,
where `prev` is the character just before the position (`none` at the
start of the string). -/
def runRe : Re → Option Char → List Char → List (Option Char × List Char)
  | .eps, prev, s => [(prev, s)]
  | .tok _, _, [] => []
  | .tok p, _, c :: cs => if p c then [(some c, cs)] else []
  | .seq a b, prev, s => (runRe a prev s).flatMap (fun pr => runRe b pr.1 pr.2)
  | .alt a b, prev, s => runRe a prev s ++ runRe b prev s
  | .star p, prev, s => starPositions p prev s
  | .plus _, _, [] => []
  | .plus p, _, c :: cs => if p c then starPositions p (some c) cs else []
  | .wb, prev, s => if isWordBoundary prev s then [(prev, s)] else []

/-- Does a match of `r` start at the position whose preceding character is
`prev` and whose remaining input is `s`, or at any later position? -/
def searchAux (r : Re) (prev : Option Char) : List Char → Bool
  | [] => !(runRe r prev []).isEmpty
  | c :: cs => !(runRe r prev (c :: cs)).isEmpty || searchAux r (some c) cs

/-- `re.Pattern.search(command)` as a Boolean. -/
def reSearch (r : Re) (s : String) : Bool :=
  searchAux r none s.data

/-- A sequence of literal characters. -/
def lits (s : String) : Re :=
  s.data.foldr (fun c r => .seq (.tok (fun x => x == c)) r) .eps

/-- Chain a list of regexes in sequence. -/
def reSeqs (l : List Re) : Re :=
  l.foldr .seq .eps

/-- `\s+`, `\s*`, `.*`, `[^\s]*` and `\S`. -/
def wsPlus : Re := .plus wsChar

def wsStar : Re := .star wsChar

def dotStar : Re := .star dotChar

def nonWsStar : Re := .star (fun c => !wsChar c)

def nonWsTok : Re := .tok (fun c => !wsChar c)

/-- `_DANGEROUS_PATTERNS` from src/utils/diff_generator.py, in order. -/
def dangerousPatterns : List Re :=
  [ -- rm -rf, rm -irf, etc.: \brm\s+.*-[^\s]*r[^\s]*f
    reSeqs [.wb, lits "rm", wsPlus, dotStar, lits "-", nonWsStar, lits "r", nonWsStar, lits "f"],
    -- rm -fr: \brm\s+.*-[^\s]*f[^\s]*r
    reSeqs [.wb, lits "rm", wsPlus, dotStar, lits "-", nonWsStar, lits "f", nonWsStar, lits "r"],
    -- \bsudo\s+rm\b
    reSeqs [.wb, lits "sudo", wsPlus, lits "rm", .wb],
    -- \bmkfs\b
    reSeqs [.wb, lits "mkfs", .wb],
    -- \bdd\s+
    reSeqs [.wb, lits "dd", wsPlus],
    -- >\s*/dev/
    reSeqs [lits ">", wsStar, lits "/dev/"],
    -- \|\s*sh\b
    reSeqs [lits "|", wsStar, lits "sh", .wb],
    -- \|\s*bash\b
    reSeqs [lits "|", wsStar, lits "bash", .wb],
    -- \bcurl\b.*\|\s*(sh|bash)\b
    reSeqs [.wb, lits "curl", .wb, dotStar, lits "|", wsStar, .alt (lits "sh") (lits "bash"), .wb],
    -- \bwget\b.*\|\s*(sh|bash)\b
    reSeqs [.wb, lits "wget", .wb, dotStar, lits "|", wsStar, .alt (lits "sh") (lits "bash"), .wb],
    -- \bchmod\s+777\b
    reSeqs [.wb, lits "chmod", wsPlus, lits "777", .wb],
    -- \bchown\s+-R\b
    reSeqs [.wb, lits "chown", wsPlus, lits "-R", .wb],
    -- \bgit\s+push\s+.*--force\b
    reSeqs [.wb, lits "git", wsPlus, lits "push", wsPlus, dotStar, lits "--force", .wb],
    -- \bgit\s+reset\s+--hard\b
    reSeqs [.wb, lits "git", wsPlus, lits "reset", wsPlus, lits "--hard", .wb],
    -- \bgit\s+clean\s+-f
    reSeqs [.wb, lits "git", wsPlus, lits "clean", wsPlus, lits "-f"],
    -- fork bomb: :\(\)\s*\{
    reSeqs [lits ":()", wsStar, lits "\x7b"],
    -- \beval\s+
    reSeqs [.wb, lits "eval", wsPlus],
    -- \bsh\s+-c\b
    reSeqs [.wb, lits "sh", wsPlus, lits "-c", .wb],
    -- \bbash\s+-c\b
    reSeqs [.wb, lits "bash", wsPlus, lits "-c", .wb] ]

/-- `_MEDIUM_RISK_PATTERNS` from src/utils/diff_generator.py, in order. -/
def mediumRiskPatterns : List Re :=
  [ reSeqs [.wb, lits "rm", wsPlus],                                -- \brm\s+
    reSeqs [.wb, lits "sudo", .wb],                                 -- \bsudo\b
    reSeqs [.wb, lits "git", wsPlus, lits "push", .wb],             -- \bgit\s+push\b
    reSeqs [.wb, lits "git", wsPlus, lits "checkout", wsPlus, lits ".", .wb],
    -- \bgit\s+checkout\s+\.\b  (the dot is escaped: a literal ".")
    reSeqs [.wb, lits "git", wsPlus, lits "stash", wsPlus, lits "drop", .wb],
    reSeqs [.wb, lits "pip", wsPlus, lits "install", .wb],          -- \bpip\s+install\b
    reSeqs [.wb, lits "npm", wsPlus, lits "install", .wb],          -- \bnpm\s+install\b
    reSeqs [.wb, lits "yarn", wsPlus, lits "add", .wb],             -- \byarn\s+add\b
    reSeqs [.wb, lits "curl", .wb],                                 -- \bcurl\b
    reSeqs [.wb, lits "wget", .wb],                                 -- \bwget\b
    reSeqs [.wb, lits "kill", .wb],                                 -- \bkill\b
    reSeqs [.wb, lits "pkill", .wb],                                -- \bpkill\b
    reSeqs [.wb, lits "mv", wsPlus],                                -- \bmv\s+
    reSeqs [.wb, lits "cp", wsPlus, lits "-r"],                     -- \bcp\s+-r
    reSeqs [.wb, lits "env", wsPlus, nonWsTok] ]                    -- \benv\s+\S

/-- `_RISK_ORDER` from src/utils/diff_generator.py. -/
def RISK_ORDER : RiskLevel → Nat
  | .low => 0
  | .medium => 1
  | .high => 2

/-- `_higher_risk`: the maximum of two risk levels. -/
def higher_risk (a b : RiskLevel) : RiskLevel :=
  if RISK_ORDER b ≤ RISK_ORDER a then a else b

/-- `_assess_single_command`: dangerous patterns first, then medium-risk
patterns, else low. -/
def assess_single_command (command : String) : RiskLevel :=
  if dangerousPatterns.any (fun r => reSearch r command) then .high
  else if mediumRiskPatterns.any (fun r => reSearch r command) then .medium
  else .low

/-- The raw split of `_COMPOUND_SPLIT` (`\s*(?:&&|\|\||;)\s*`): cut at
every `&&`, `||` and `;` — but, unlike the approval-handler split, not at
a single `|`. Whitespace around each operator is stripped from each
segment before use, so absorbing it into the segments is equivalent. -/
def compoundSplitGo : List Char → List Char → List (List Char)
  | [], acc => [acc.reverse]
  | '&' :: '&' :: rest, acc => acc.reverse :: compoundSplitGo rest []
  | '|' :: '|' :: rest, acc => acc.reverse :: compoundSplitGo rest []
  | ';' :: rest, acc => acc.reverse :: compoundSplitGo rest []
  | c :: rest, acc => compoundSplitGo rest (c :: acc)

/-- The segment loop of `assess_bash_risk`: strip each segment, skip empty
ones, accumulate the maximum risk, returning high as soon as it is
reached. -/
def assessSegments : RiskLevel → List String → RiskLevel
  | max_risk, [] => max_risk
  | max_risk, seg :: rest =>
      let seg' := pyStrip seg
      if seg' = "" then assessSegments max_risk rest
      else
        let risk := higher_risk max_risk (assess_single_command seg')
        if risk = .high then .high
        else assessSegments risk rest

/-- `assess_bash_risk` from src/utils/diff_generator.py: check the full
command first (returning high immediately on a dangerous match), then split
on compound operators and fold the per-segment classification into the
maximum. -/
def assess_bash_risk (command : String) : RiskLevel :=
  let full_risk := assess_single_command command
  if full_risk = .high then .high
  else
    let segments := (compoundSplitGo command.data []).map (fun cs => String.mk cs)
    if segments.length ≤ 1 then full_risk
    else assessSegments full_risk segments

/-! ## Diff finalization and the two-tier size policy
(src/utils/diff_generator.py) -/

/-- `INLINE_MAX_BYTES` from src/utils/diff_generator.py. -/
def INLINE_MAX_BYTES : Nat := 100000

/-- `PREVIEW_HEAD_LINES` from src/utils/diff_generator.py. -/
def PREVIEW_HEAD_LINES : Nat := 250

/-- `PREVIEW_TAIL_LINES` from src/utils/diff_generator.py. -/
def PREVIEW_TAIL_LINES : Nat := 250

/-- `len(s.encode())`: the UTF-8 byte length of a Python string. -/
def utf8Len (s : String) : Nat :=
  s.data.foldl (fun n c => n + c.utf8Size) 0

/-- `s.count("\n")`: the number of newline characters. -/
def countNewlines (s : String) : Nat :=
  s.data.count '\n'

/-- `str.splitlines(keepends=True)` for text whose only line-boundary
character is `"\n"` (diff text; Python also breaks on `\r`, `\v`, `\f` and
some unicode boundaries, which never occur in the unified-diff lines at
stake). -/
def splitKeepEnds (s : String) : List String :=
  (splitKeepEndsGo s.data []).map (fun cs => String.mk cs)
where
  splitKeepEndsGo : List Char → List Char → List (List Char)
    | [], acc => if acc.isEmpty then [] else [acc.reverse]
    | c :: rest, acc =>
        if c = '\n' then (acc.reverse ++ ['\n']) :: splitKeepEndsGo rest []
        else splitKeepEndsGo rest (c :: acc)

/-- `DiffResult` TypedDict from src/utils/diff_generator.py. -/
structure DiffResult where
  diff : Option String
  diff_stats : Option DiffStats
  risk_level : Option RiskLevel
  tier : DiffTier
  total_bytes : Nat
  total_lines : Nat
  truncated : Bool
deriving DecidableEq

/-- `_compute_stats`: count `+`/`-` lines, excluding the `+++`/`---` file
headers. -/
def compute_stats (diff_lines : List String) : DiffStats :=
  diff_lines.foldl
    (fun st line =>
      if line.startsWith "+" && !line.startsWith "+++" then
        { st with additions := st.additions + 1 }
      else if line.startsWith "-" && !line.startsWith "---" then
        { st with deletions := st.deletions + 1 }
      else st)
    { additions := 0, deletions := 0 }

/-- `_build_preview`: first `PREVIEW_HEAD_LINES` and last
`PREVIEW_TAIL_LINES` lines around an omission marker; a text of at most
head+tail lines is returned whole (the source comments this case
"shouldn't happen" and handles it "gracefully"). The `total_lines`
argument is accepted and unused, as in the source. -/
def build_preview (diff_text : String) (total_lines : Nat) : String :=
  let lines := splitKeepEnds diff_text
  let head_n := PREVIEW_HEAD_LINES
  let tail_n := PREVIEW_TAIL_LINES
  if lines.length ≤ head_n + tail_n then diff_text
  else
    let head := lines.take head_n
    let tail := lines.drop (lines.length - tail_n)
    let omitted := lines.length - head_n - tail_n
    String.join head
      ++ ("\n... (" ++ toString omitted ++ " lines omitted) ...\n\n")
      ++ String.join tail

/-- `_finalize_diff`: compute byte/line counts and stats from the full
diff, then return it inline or as a head+tail preview depending on the
`INLINE_MAX_BYTES` threshold. -/
def finalize_diff (diff_lines : List String) (risk_level : RiskLevel) : DiffResult :=
  if diff_lines.isEmpty then
    { diff := none
      diff_stats := some (compute_stats diff_lines)
      risk_level := some risk_level
      tier := .inline
      total_bytes := 0
      total_lines := 0
      truncated := false }
  else
    let full_text := String.join diff_lines
    let total_bytes := utf8Len full_text
    let total_lines := countNewlines full_text
    let stats := compute_stats diff_lines
    if total_bytes ≤ INLINE_MAX_BYTES then
      { diff := some full_text
        diff_stats := some stats
        risk_level := some risk_level
        tier := .inline
        total_bytes := total_bytes
        total_lines := total_lines
        truncated := false }
    else
      { diff := some (build_preview full_text total_lines)
        diff_stats := some stats
        risk_level := some risk_level
        tier := .truncated
        total_bytes := total_bytes
        total_lines := total_lines
        truncated := true }

/-- `generate_bash_diff`: the command text is the "diff"; no stats, no
truncation; risk from `assess_bash_risk`; `total_bytes` is the command's
UTF-8 byte length and `total_lines` its newline count plus one. -/
def generate_bash_diff (command : String) : DiffResult :=
  { diff := some command
    diff_stats := none
    risk_level := some (assess_bash_risk command)
    tier := .inline
    total_bytes := utf8Len command
    total_lines := countNewlines command + 1
    truncated := false }

/-- `generate_diff`, the dispatching entry point, for the branches this
development exercises: the Bash branch and the unknown-tool fallthrough.
The Edit/Write/MultiEdit branches compute line diffs with
`difflib.unified_diff` (a library algorithm not modelled here) and feed
them to `_finalize_diff`, which is modelled above over arbitrary diff
lines; no claim depends on the diff lines difflib produces. -/
def generate_diff (tool_name : String) (tool_input : ToolInput) : DiffResult :=
  if tool_name == "Bash" then
    generate_bash_diff (tool_input.getD "command" "")
  else
    { diff := none, diff_stats := none, risk_level := none,
      tier := .inline, total_bytes := 0, total_lines := 0, truncated := false }

/-! ## The approval coordinator's queue/decide/clear protocol
(src/core/approval_handler.py)

`ApprovalHandler._pending` is a dict keyed by session id, guarded by an
asyncio lock; each mutating operation holds the lock for its whole critical
section, so each is modelled as one atomic function on the handler state.
A `PendingApprovalRequest` carries an `asyncio.Event` (`eventSet` below)
plus the mutable `approved`/`feedback` fields. The Python code mutates the
request object in place, which the hook that queued it still references;
functionally, an operation that resolves a request returns the resolved
request object alongside the new state — that returned value is exactly
what the waiting hook observes when its gate opens. -/

/-- `APPROVAL_TIMEOUT_SECONDS` from src/core/approval_handler.py
("0 = no timeout"). -/
def APPROVAL_TIMEOUT_SECONDS : Int := 300

/-- The `PendingApprovalRequest` dataclass. -/
structure PendingApprovalRequest where
  session_id : String
  tool_name : String
  tool_input : ToolInput
  tool_use_id : String
  file_path : Option String
  diff : Option String
  diff_stats : Option DiffStats
  risk_level : Option RiskLevel
  tier : DiffTier
  total_bytes : Nat
  total_lines : Nat
  requested_at : String
  eventSet : Bool
  approved : Option Bool
  feedback : Option String
deriving DecidableEq

/-- The `ApprovalHandler`'s mutable state: its rules and the pending-request
dict. -/
structure HandlerState where
  rules : List (String × ApprovalRule)
  pending : List (String × PendingApprovalRequest)
deriving DecidableEq

/-- Remove the binding for a key from an association list
(`del d[k]` / `d.pop(k, None)`). -/
def assocErase (m : List (String × PendingApprovalRequest)) (key : String) :
    List (String × PendingApprovalRequest) :=
  m.filter (fun p => p.1 != key)

/-- Set the binding for a key in an association list (`d[k] = v`). -/
def assocSet (m : List (String × PendingApprovalRequest)) (key : String)
    (v : PendingApprovalRequest) : List (String × PendingApprovalRequest) :=
  assocErase m key ++ [(key, v)]

/-- `ApprovalHandler.queue_approval`: compute the diff result, build the
request (gate closed, no decision), and store it under the session id,
overwriting (with a logged warning) any prior pending request. Returns the
request the caller will wait on. -/
def queue_approval (st : HandlerState) (session_id tool_name : String)
    (tool_input : ToolInput) (tool_use_id : String) (requested_at : String) :
    PendingApprovalRequest × HandlerState :=
  let diff_result := generate_diff tool_name tool_input
  let request : PendingApprovalRequest :=
    { session_id := session_id
      tool_name := tool_name
      tool_input := tool_input
      tool_use_id := tool_use_id
      file_path := get_file_path tool_name tool_input
      diff := diff_result.diff
      diff_stats := diff_result.diff_stats
      risk_level := diff_result.risk_level
      tier := diff_result.tier
      total_bytes := diff_result.total_bytes
      total_lines := diff_result.total_lines
      requested_at := requested_at
      eventSet := false
      approved := none
      feedback := none }
  (request, { st with pending := assocSet st.pending session_id request })

/-- `ApprovalHandler.get_pending`. -/
def get_pending (st : HandlerState) (session_id : String) :
    Option PendingApprovalRequest :=
  List.lookup session_id st.pending

/-- `ApprovalHandler.process_decision`: if nothing is pending for the
session, return false and change nothing; otherwise record the decision
and feedback on the request, set its event, remove it from the pending
dict, and return true. The resolved request (the object the waiting hook
holds) is returned as the third component. -/
def process_decision (st : HandlerState) (session_id : String)
    (approved : Bool) (feedback : Option String) :
    Bool × HandlerState × Option PendingApprovalRequest :=
  match List.lookup session_id st.pending with
  | none => (false, st, none)
  | some request =>
      let resolved : PendingApprovalRequest :=
        { request with approved := some approved, feedback := feedback, eventSet := true }
      (true, { st with pending := assocErase st.pending session_id }, some resolved)

/-- `ApprovalHandler.clear_pending`: pop the pending request if any,
resolving it as denied with the synthetic "cleared" feedback and setting
its event so a waiting hook unblocks. -/
def clear_pending (st : HandlerState) (session_id : String) :
    HandlerState × Option PendingApprovalRequest :=
  match List.lookup session_id st.pending with
  | none => (st, none)
  | some request =>
      let resolved : PendingApprovalRequest :=
        { request with approved := some false,
                       feedback := some "Approval cleared (session cancelled)",
                       eventSet := true }
      ({ st with pending := assocErase st.pending session_id }, some resolved)

/-! ## The approval hook's wait and timeout (src/core/agent_runtime.py)

`AgentRuntime._make_approval_hook` builds a PreToolUse hook that, for a
tool requiring approval, queues a request and waits on its event — wrapped
in `asyncio.wait_for` with `APPROVAL_TIMEOUT_SECONDS` when that constant is
positive, and as a plain unbounded `event.wait()` otherwise (so a policy
value of 0 or below disables the bound and a timeout outcome cannot occur).
The hook's return value is a permission decision dict, modelled as
`HookDecision`; the hook body performs no session-store operation, which
the model makes explicit by threading the store through unchanged. -/

/-- The hook's `hookSpecificOutput.permissionDecision` (with
`permissionDecisionReason` for a denial). A timeout produces a `deny`
value, not an exception. -/
inductive HookDecision where
  | allow
  | deny (reason : String)
deriving DecidableEq

/-- Is the wait bounded? Models `if APPROVAL_TIMEOUT_SECONDS > 0`. -/
def waitIsBounded (timeout_seconds : Int) : Bool :=
  timeout_seconds > 0

/-- How the wait on the decision gate ends: with the resolved request (the
object whose event was set by `process_decision` or `clear_pending`), or by
`asyncio.TimeoutError`. A timeout outcome presupposes a bounded wait. -/
inductive WaitOutcome where
  | decided (request : PendingApprovalRequest)
  | timedOut
deriving DecidableEq

/-- The tail of the approval hook after the wait, from
src/core/agent_runtime.py: on `TimeoutError`, clear the pending request and
deny with the timeout reason; on a decision, allow if approved, else deny
with the feedback (an empty or missing feedback falls back to the generic
denial reason — Python `request.feedback or f"User denied ..."`). The
session store is untouched by the hook and returned unchanged. -/
def approval_hook_after_wait (timeout_seconds : Int) (st : HandlerState)
    (store : Store) (session_id tool_name : String) (outcome : WaitOutcome) :
    HookDecision × HandlerState × Store :=
  match outcome with
  | .timedOut =>
      let (st1, _) := clear_pending st session_id
      (.deny ("Approval timed out after " ++ toString timeout_seconds ++ " seconds"),
       st1, store)
  | .decided request =>
      if request.approved = some true then
        (.allow, st, store)
      else
        let reason :=
          match request.feedback with
          | some f => if f = "" then "User denied " ++ tool_name ++ " execution" else f
          | none => "User denied " ++ tool_name ++ " execution"
        (.deny reason, st, store)

/-! ## The approve/deny decision path (src/api/routes/sessions.py)

`_process_approval_decision` shares one code path between the approve and
deny routes: fetch the session, require WAITING_APPROVAL, commit the
transition back to RUNNING, and only then signal the waiting hook through
`process_decision`. To state the ordering claim, the shared state visible
to a concurrently waiting consumer is modelled as a record of the session
store, the handler state, and whether the gate of the request the consumer
waits on has been opened; the procedure returns, besides its outcome, the
list of shared states after each of its atomic effects, in program order. -/

/-- The shared state a waiting consumer can observe between the decision
handler's atomic effects. -/
structure SharedState where
  store : Store
  handler : HandlerState
  gateOpen : Bool
deriving DecidableEq

/-- The HTTP-level failures `_process_approval_decision` can raise. -/
inductive ApiError where
  | notFound (detail : String)
  | badRequest (detail : String)
deriving DecidableEq

/-- `_process_approval_decision`: validate state, transition the stored
session to RUNNING, then signal the hook. The second component lists the
shared states after each committed effect (first the status write, then
the gate signal), in the order the source performs them. -/
def process_approval_decision (s0 : SharedState) (session_id : String)
    (approved : Bool) (feedback : Option String) :
    Except ApiError Unit × List SharedState :=
  match get_session s0.store session_id with
  | .error _ => (.error (.notFound ("Session not found: " ++ session_id)), [])
  | .ok session =>
      if session.status = .waiting_approval then
        match update_session_status s0.store session_id .running none none with
        | (.error _, _) =>
            -- unreachable: RUNNING is a valid target from WAITING_APPROVAL
            (.error (.badRequest "invalid transition"), [])
        | (.ok _, store1) =>
            let s1 : SharedState := { s0 with store := store1 }
            let (processed, handler2, _) :=
              process_decision s1.handler session_id approved feedback
            let s2 : SharedState :=
              { s1 with handler := handler2, gateOpen := s1.gateOpen || processed }
            if processed then (.ok (), [s1, s2])
            else (.error (.badRequest "No pending approval request found in handler"),
                  [s1, s2])
      else
        (.error (.badRequest "Session is not waiting for approval"), [])

/-! ## Claim-side definitions and concrete fixtures -/

/-- The data-model invariant of §3 of the spec: `pending_approval` is
non-null iff the status is WAITING_APPROVAL. -/
def pendingApprovalInv (s : Session) : Prop :=
  s.pending_approval.isSome ↔ s.status = .waiting_approval

/-- The auto-approve condition exactly as claim C4 words it for a non-auto
Bash rule: the command, split on the shell-compound operators, yields only
segments that each match at least one of the rule's glob patterns (a
vacuously true condition when the split yields no non-empty segment). -/
def bashClaimAllSegmentsMatch (rule : ApprovalRule) (command : String) : Bool :=
  (shellSegments command).all (fun seg => rule.matchesAnyPattern seg)

/-- A Bash rule whose single pattern `*` matches every segment, used to
exhibit the gap between claim C4's wording and the code on commands with
no non-empty segment. -/
def starRule : ApprovalRule :=
  { tool_name := "Bash", auto_approve := false, patterns := ["*"],
    description := "" }

/-- The classification exactly as claim C8 describes it: the dangerous
check on the full string first, then the maximum of the full-string risk
and every (stripped, non-empty) segment's independent classification. -/
def assess_bash_risk_claim (command : String) : RiskLevel :=
  let full_risk := assess_single_command command
  if full_risk = .high then .high
  else
    let segments := (compoundSplitGo command.data []).map (fun cs => String.mk cs)
    let segs := (segments.map pyStrip).filter (fun s => s != "")
    (segs.map assess_single_command).foldl higher_risk full_risk

/-- A session fixture in a given status (all other fields quiescent). -/
def exampleSession (st : SessionStatus) : Session :=
  { id := "s1"
    claude_session_id := none
    project_id := "p1"
    name := none
    status := st
    last_prompt := none
    pending_approval := none
    message_count := 0
    total_cost_usd := 0
    error_message := none }

/-- The session produced by driving `update_session_status` to
WAITING_APPROVAL from the RUNNING fixture. -/
def exampleWaSession : Session :=
  { exampleSession .running with status := .waiting_approval }

/-- An approval-payload fixture. -/
def examplePayload : PendingApproval :=
  { tool_name := "Write"
    tool_input := [("file_path", "test.py"), ("content", "pass")]
    tool_use_id := "toolu_123"
    file_path := some "test.py"
    diff := some "+pass\n"
    diff_stats := some { additions := 1, deletions := 0 }
    risk_level := some .low
    diff_tier := .inline
    total_bytes := 6
    total_lines := 1
    requested_at := "2026-02-06T00:00:00+00:00" }

/-- A pending-request fixture whose gate is still closed. -/
def exampleRequest : PendingApprovalRequest :=
  { session_id := "s1"
    tool_name := "Write"
    tool_input := [("file_path", "test.py"), ("content", "pass")]
    tool_use_id := "toolu_123"
    file_path := some "test.py"
    diff := some "+pass\n"
    diff_stats := some { additions := 1, deletions := 0 }
    risk_level := some .low
    tier := .inline
    total_bytes := 6
    total_lines := 1
    requested_at := "2026-02-06T00:00:00+00:00"
    eventSet := false
    approved := none
    feedback := none }

/-- A single diff line longer (in UTF-8 bytes) than `INLINE_MAX_BYTES`. -/
def bigLine : String := String.mk (List.replicate 100001 'a')

/-- A handler-state fixture with one queued request. -/
def exampleHandler : HandlerState :=
  { rules := DEFAULT_RULES, pending := [("s1", exampleRequest)] }

/-- A WAITING_APPROVAL session fixture carrying its payload. -/
def exampleWaPayloadSession : Session :=
  { exampleSession .running with
      status := .waiting_approval, pending_approval := some examplePayload }

/-- The shared-state fixture for the ordering scenario: a WAITING_APPROVAL
session, its queued request, gate closed. -/
def exampleShared : SharedState :=
  { store := [("s1", exampleWaPayloadSession)]
    handler := exampleHandler
    gateOpen := false }

/-- The character immediately preceding position `u.length` when the
scanned string is `u ++ v`: the last character of `u`, or the original
preceding character when `u` is empty. -/
def prevAfter (prev : Option Char) (u : List Char) : Option Char :=
  match u.getLast? with
  | some c => some c
  | none => prev

/-- The session the success path of `update_session_status` commits: the
let-chain of the source in one definition (status set, error message set
on ERROR and cleared on RUNNING, a non-empty Claude session id applied,
pending approval cleared when leaving WAITING_APPROVAL). -/
def updatedSession (s : Session) (ns : SessionStatus) (em cid : Option String) :
    Session :=
  let s1 : Session := { s with status := ns }
  let s2 : Session :=
    if ns = .error then { s1 with error_message := em }
    else if ns = .running then { s1 with error_message := none }
    else s1
  let s3 : Session :=
    match cid with
    | some c => if c = "" then s2 else { s2 with claude_session_id := some c }
    | none => s2
  if s.status = .waiting_approval then { s3 with pending_approval := none } else s3

/-! # Theorems

Helper lemmas first, then one theorem (with its witness or counterexample)
per claim of the specification. -/

theorem get_session_store_write (store : Store) (sid : String) (s v : Session)
    (h : get_session store sid = .ok s) :
    get_session (store_write store sid v) sid = .ok v := by
  unfold get_session at *
  unfold store_write
  induction store with
  | nil => simp [List.lookup] at h
  | cons p rest ih =>
      rcases p with ⟨k, x⟩
      cases hk : (k == sid)
      · have hk1 : (sid == k) = false := by
          rw [beq_eq_false_iff_ne] at hk ⊢
          exact fun he => hk he.symm
        simp only [List.lookup, hk1] at h
        rw [List.map_cons, if_neg (by simp [hk])]
        simp only [List.lookup, hk1]
        exact ih h
      · have hk1 : (sid == k) = true := by
          rw [beq_iff_eq] at hk ⊢
          exact hk.symm
        rw [List.map_cons, if_pos hk]
        simp only [List.lookup, hk1]

theorem update_session_status_spec (store : Store) (sid : String)
    (ns : SessionStatus) (em cid : Option String) (s : Session)
    (hs : get_session store sid = .ok s)
    (hc : (VALID_TRANSITIONS s.status).contains ns = true) :
    update_session_status store sid ns em cid =
      (.ok (updatedSession s ns em cid), store_write store sid (updatedSession s ns em cid)) := by
  unfold update_session_status updatedSession
  rw [hs]
  simp only [hc, if_true]

theorem updatedSession_status (s : Session) (ns : SessionStatus)
    (em cid : Option String) : (updatedSession s ns em cid).status = ns := by
  unfold updatedSession
  repeat' split
  all_goals rfl

theorem updatedSession_pending (s : Session) (ns : SessionStatus)
    (em cid : Option String) :
    (updatedSession s ns em cid).pending_approval =
      (if s.status = .waiting_approval then none else s.pending_approval) := by
  unfold updatedSession
  repeat' split
  all_goals simp_all

/-- C1: for every session and every (current status, attempted target) pair
outside the transition table, `update_session_status` raises a state error
carrying the attempted transition and the valid targets, and returns the
store unchanged (so the session record, its status included, is untouched). -/
theorem update_status_rejects_untabled_transitions
    (store : Store) (session_id : String) (s : Session)
    (new_status : SessionStatus) (error_message claude_session_id : Option String)
    (hs : get_session store session_id = .ok s)
    (hinvalid : (VALID_TRANSITIONS s.status).contains new_status = false) :
    update_session_status store session_id new_status error_message claude_session_id
      = (.error (.sessionStateError s.status new_status (VALID_TRANSITIONS s.status)),
         store) := by
  unfold update_session_status
  rw [hs]
  simp only [hinvalid, Bool.false_eq_true, if_false]

/-- Witness for C1: a concrete IDLE session refused the IDLE → COMPLETED
transition, with the store unchanged. -/
theorem update_status_rejects_untabled_transitions_witness :
    update_session_status [("s1", exampleSession .idle)] "s1" .completed none none
      = (.error (.sessionStateError .idle .completed [.running]),
         [("s1", exampleSession .idle)]) :=
  update_status_rejects_untabled_transitions _ _ (exampleSession .idle) _ _ _
    (by rfl) (by rfl)

/-- C2 counterexample: calling `update_session_status` directly with target
WAITING_APPROVAL on a RUNNING session succeeds — the transition is in the
table — without attaching any approval payload, leaving a WAITING_APPROVAL
session with a null `pending_approval`: the claimed invariant does not
survive every Session Store operation. -/
theorem pending_approval_invariant_counterexample :
    update_session_status [("s1", exampleSession .running)] "s1"
        .waiting_approval none none
      = (.ok exampleWaSession, [("s1", exampleWaSession)]) ∧
    exampleWaSession.status = .waiting_approval ∧
    exampleWaSession.pending_approval = none ∧
    ¬ pendingApprovalInv exampleWaSession := by
  refine ⟨by rfl, by rfl, by rfl, ?_⟩
  intro h
  have := h.mpr (by rfl)
  simp [exampleWaSession, exampleSession] at this

/-- C2 (amended): every Session Store operation except
`update_session_status` with target WAITING_APPROVAL preserves the
invariant that `pending_approval` is non-null iff the status is
WAITING_APPROVAL: `set_pending_approval` rejects from every non-RUNNING
state (store unchanged) and, from RUNNING, writes the payload atomically
with the WAITING_APPROVAL status; any transition whose source state is
WAITING_APPROVAL clears the payload; `create_session` starts sessions
IDLE with a null payload; `add_message` and `update_session_cost` touch
neither field. `update_session_status` invoked with target
WAITING_APPROVAL (exhibited in the counterexample) is the one operation
that can break the invariant. -/
theorem pending_approval_invariant_amended :
    -- set_pending_approval rejects from every non-RUNNING state
    (∀ (store : Store) (sid : String) (data : PendingApproval) (s : Session),
       get_session store sid = .ok s → s.status ≠ .running →
       set_pending_approval store sid data
         = (.error (.pendingFromNonRunning s.status), store)) ∧
    -- from RUNNING it writes payload and status in one commit
    (∀ (store : Store) (sid : String) (data : PendingApproval) (s : Session),
       get_session store sid = .ok s → s.status = .running →
       set_pending_approval store sid data
         = (.ok { s with pending_approval := some data, status := .waiting_approval },
            store_write store sid
              { s with pending_approval := some data, status := .waiting_approval }) ∧
       pendingApprovalInv
         { s with pending_approval := some data, status := .waiting_approval }) ∧
    -- update_session_status with any target other than WAITING_APPROVAL
    -- preserves the invariant (and clears the payload when leaving it)
    (∀ (store : Store) (sid : String) (ns : SessionStatus) (em cid : Option String)
       (s s' : Session) (store' : Store),
       get_session store sid = .ok s → pendingApprovalInv s →
       ns ≠ .waiting_approval →
       update_session_status store sid ns em cid = (.ok s', store') →
       pendingApprovalInv s') ∧
    -- create_session yields an IDLE session with a null payload
    (∀ (store : Store) (projects : List String) (pid : String)
       (name ip cid : Option String) (nid : String) (s' : Session) (store' : Store),
       create_session store projects pid name ip cid nid = (.ok s', store') →
       s'.status = .idle ∧ s'.pending_approval = none ∧ pendingApprovalInv s') ∧
    -- add_message and update_session_cost change neither status nor payload
    (∀ (store : Store) (sid : String) (role content : String) (s s' : Session),
       get_session store sid = .ok s →
       (add_message store sid role content).1 = .ok s' →
       s'.status = s.status ∧ s'.pending_approval = s.pending_approval) ∧
    (∀ (store : Store) (sid : String) (c : Rat) (s s' : Session),
       get_session store sid = .ok s →
       (update_session_cost store sid c).1 = .ok s' →
       s'.status = s.status ∧ s'.pending_approval = s.pending_approval) := by
  refine ⟨?_, ?_, ?_, ?_, ?_, ?_⟩
  · intro store sid data s hs hns
    unfold set_pending_approval
    rw [hs]
    simp [hns]
  · intro store sid data s hs hrun
    unfold set_pending_approval
    rw [hs]
    refine ⟨by simp [hrun], ?_⟩
    unfold pendingApprovalInv
    simp
  · intro store sid ns em cid s s' store' hs hinv hns hupd
    unfold pendingApprovalInv at hinv
    by_cases hc : (VALID_TRANSITIONS s.status).contains ns = true
    · rw [update_session_status_spec store sid ns em cid s hs hc] at hupd
      have hs' : s' = updatedSession s ns em cid := by
        have := congrArg Prod.fst hupd
        simpa using this.symm
      subst hs'
      unfold pendingApprovalInv
      rw [updatedSession_status, updatedSession_pending]
      constructor
      · intro hsome
        by_cases hw : s.status = .waiting_approval
        · rw [if_pos hw] at hsome
          simp at hsome
        · rw [if_neg hw] at hsome
          exact absurd (hinv.mp hsome) hw
      · intro hns'
        exact absurd hns' hns
    · rw [update_status_rejects_untabled_transitions store sid s ns em cid hs
          (by revert hc; cases (VALID_TRANSITIONS s.status).contains ns <;> simp)] at hupd
      exact absurd (congrArg Prod.fst hupd) (by simp)
  · intro store projects pid name ip cid nid s' store' hcr
    unfold create_session at hcr
    by_cases hp : projects.contains pid = true
    · rw [if_pos hp] at hcr
      simp only [Prod.mk.injEq] at hcr
      obtain ⟨h1, h2⟩ := hcr
      injection h1 with h1
      subst h1
      refine ⟨rfl, rfl, ?_⟩
      unfold pendingApprovalInv
      simp
    · rw [if_neg hp] at hcr
      simp only [Prod.mk.injEq] at hcr
      exact absurd hcr.1 (by simp)
  · intro store sid role content s s' hs hadd
    unfold add_message at hadd
    rw [hs] at hadd
    by_cases hrole : role = "user"
    · simp only [if_pos hrole] at hadd
      simp only [Except.ok.injEq] at hadd
      subst hadd
      exact ⟨rfl, rfl⟩
    · simp only [if_neg hrole] at hadd
      simp only [Except.ok.injEq] at hadd
      subst hadd
      exact ⟨rfl, rfl⟩
  · intro store sid c s s' hs hupd
    unfold update_session_cost at hupd
    rw [hs] at hupd
    simp only [Except.ok.injEq] at hupd
    subst hupd
    exact ⟨rfl, rfl⟩

/-- Witness for C2 (amended): the concrete rejection of
`set_pending_approval` from IDLE, and its success from RUNNING. -/
theorem pending_approval_invariant_amended_witness :
    set_pending_approval [("s1", exampleSession .idle)] "s1" examplePayload
      = (.error (.pendingFromNonRunning .idle), [("s1", exampleSession .idle)]) :=
  pending_approval_invariant_amended.1 _ _ examplePayload (exampleSession .idle)
    (by rfl) (by decide)

/-- C9: when the agent's event stream ends, `_ensure_terminal_state`
forces a RUNNING session to COMPLETED (silent stream closure is treated as
success) and leaves a session in any other status untouched. -/
theorem silent_stream_closure_completes
    (store : Store) (session_id : String) (s : Session)
    (hs : get_session store session_id = .ok s) :
    (s.status = .running →
       ensure_terminal_state store session_id
         = (.ok (), store_write store session_id { s with status := .completed })) ∧
    (s.status ≠ .running →
       ensure_terminal_state store session_id = (.ok (), store)) := by
  constructor
  · intro hrun
    unfold ensure_terminal_state
    rw [hs]
    simp only [hrun, if_true]
    unfold complete_session
    rw [update_session_status_spec store session_id .completed none none s hs
      (by rw [hrun]; rfl)]
    have : updatedSession s .completed none none = { s with status := .completed } := by
      unfold updatedSession
      simp [hrun]
    rw [this]
    rfl
  · intro hrun
    unfold ensure_terminal_state
    rw [hs]
    simp [hrun]

/-- Witness for C9: a RUNNING session is completed; a COMPLETED session is
left untouched. -/
theorem silent_stream_closure_completes_witness :
    ensure_terminal_state [("s1", exampleSession .running)] "s1"
      = (.ok (), [("s1", { exampleSession .running with status := .completed })]) ∧
    ensure_terminal_state [("s1", exampleSession .completed)] "s1"
      = (.ok (), [("s1", exampleSession .completed)]) :=
  ⟨(silent_stream_closure_completes _ "s1" (exampleSession .running) (by rfl)).1 rfl,
   (silent_stream_closure_completes _ "s1" (exampleSession .completed) (by rfl)).2
     (by decide)⟩


theorem lookup_assocErase (m : List (String × PendingApprovalRequest)) (k : String) :
    List.lookup k (assocErase m k) = none := by
  unfold assocErase
  induction m with
  | nil => rfl
  | cons p rest ih =>
      rcases p with ⟨k1, v1⟩
      rw [List.filter_cons]
      cases hk : (k1 == k)
      · have hne : ((k1, v1).1 != k) = true := by simp [bne, hk]
        rw [hne, if_pos rfl]
        have hk1 : (k == k1) = false := by
          rw [beq_eq_false_iff_ne] at hk ⊢
          exact fun he => hk he.symm
        simp only [List.lookup, hk1]
        exact ih
      · have hne : ((k1, v1).1 != k) = false := by simp [bne, hk]
        rw [hne, if_neg (by simp)]
        exact ih

theorem lookup_append_single (l : List (String × PendingApprovalRequest)) (k : String)
    (v : PendingApprovalRequest) (h : List.lookup k l = none) :
    List.lookup k (l ++ [(k, v)]) = some v := by
  induction l with
  | nil => simp [List.lookup]
  | cons p rest ih =>
      rcases p with ⟨k1, v1⟩
      cases hk : (k == k1)
      · simp only [List.lookup, hk] at h
        simp only [List.cons_append, List.lookup, hk]
        exact ih h
      · simp only [List.lookup, hk] at h
        exact absurd h (by simp)

theorem lookup_assocSet (m : List (String × PendingApprovalRequest)) (k : String)
    (v : PendingApprovalRequest) :
    List.lookup k (assocSet m k v) = some v :=
  lookup_append_single (assocErase m k) k v (lookup_assocErase m k)

theorem process_decision_none (st : HandlerState) (sid : String) (a : Bool)
    (fb : Option String) (h : List.lookup sid st.pending = none) :
    process_decision st sid a fb = (false, st, none) := by
  unfold process_decision
  rw [h]

theorem process_decision_some (st : HandlerState) (sid : String) (a : Bool)
    (fb : Option String) (r : PendingApprovalRequest)
    (h : List.lookup sid st.pending = some r) :
    process_decision st sid a fb
      = (true, { st with pending := assocErase st.pending sid },
         some { r with approved := some a, feedback := fb, eventSet := true }) := by
  unfold process_decision
  rw [h]

/-- C5: after `queue_approval` creates a pending request, the first
`process_decision` for that session records the decision and feedback,
opens the request's gate, removes it from the pending map, and returns
true; a second call for the same session (with nothing re-queued) returns
false and changes nothing; and in general `process_decision` returns false
exactly when no request is pending for the session. -/
theorem approval_gate_unblocks_once :
    (∀ (st : HandlerState) (sid tn : String) (ti : ToolInput) (tuid ts : String)
       (approved : Bool) (fb : Option String),
       (process_decision (queue_approval st sid tn ti tuid ts).2 sid approved fb).1
         = true ∧
       (process_decision (queue_approval st sid tn ti tuid ts).2 sid approved fb).2.2
         = some { (queue_approval st sid tn ti tuid ts).1 with
                    approved := some approved, feedback := fb, eventSet := true } ∧
       get_pending
         (process_decision (queue_approval st sid tn ti tuid ts).2 sid approved fb).2.1
         sid = none ∧
       process_decision
         (process_decision (queue_approval st sid tn ti tuid ts).2 sid approved fb).2.1
         sid approved fb
         = (false,
            (process_decision (queue_approval st sid tn ti tuid ts).2 sid approved fb).2.1,
            none)) ∧
    (∀ (st : HandlerState) (sid : String) (approved : Bool) (fb : Option String),
       (process_decision st sid approved fb).1 = false ↔ get_pending st sid = none) := by
  constructor
  · intro st sid tn ti tuid ts approved fb
    have hq : List.lookup sid (queue_approval st sid tn ti tuid ts).2.pending
        = some (queue_approval st sid tn ti tuid ts).1 := by
      unfold queue_approval
      exact lookup_assocSet st.pending sid _
    have h1 := process_decision_some (queue_approval st sid tn ti tuid ts).2 sid
      approved fb _ hq
    rw [h1]
    have hgone : List.lookup sid
        (assocErase (queue_approval st sid tn ti tuid ts).2.pending sid) = none :=
      lookup_assocErase _ sid
    refine ⟨rfl, rfl, ?_, ?_⟩
    · unfold get_pending
      exact hgone
    · exact process_decision_none _ sid approved fb hgone
  · intro st sid approved fb
    unfold process_decision get_pending
    cases h : List.lookup sid st.pending <;> simp [h]

/-- C6: the approval hook's wait is bounded exactly when the timeout
policy is positive (300 seconds by default; a value ≤ 0 disables the bound
and waits indefinitely); when the bounded wait times out, the pending
request is cleared from the queue and the hook returns a normal denial —
not an exception — whose reason states the timeout, with the session
store untouched (the session is not failed and the conversation
continues with the denial fed back). -/
theorem approval_timeout_denies :
    APPROVAL_TIMEOUT_SECONDS = 300 ∧
    (∀ t : Int, waitIsBounded t = false ↔ t ≤ 0) ∧
    (∀ (t : Int) (st : HandlerState) (store : Store) (sid tn : String),
       0 < t →
       approval_hook_after_wait t st store sid tn .timedOut
         = (.deny ("Approval timed out after " ++ toString t ++ " seconds"),
            (clear_pending st sid).1, store) ∧
       get_pending (clear_pending st sid).1 sid = none) := by
  refine ⟨rfl, ?_, ?_⟩
  · intro t
    unfold waitIsBounded
    simp
  · intro t st store sid tn ht
    constructor
    · unfold approval_hook_after_wait
      rfl
    · unfold clear_pending get_pending
      cases h : List.lookup sid st.pending
      · exact h
      · simp only [h]
        exact lookup_assocErase _ sid

/-- Witness for C6: the default 300-second policy, a timed-out wait on a
concrete pending request, and the cleared queue. -/
theorem approval_timeout_denies_witness :
    approval_hook_after_wait 300 exampleHandler [] "s1" "Write" .timedOut
      = (.deny "Approval timed out after 300 seconds",
         { rules := DEFAULT_RULES, pending := [] }, []) ∧
    get_pending { rules := DEFAULT_RULES, pending := ([] : List (String × PendingApprovalRequest)) } "s1" = none := by
  have h := approval_timeout_denies.2.2 300 exampleHandler [] "s1" "Write" (by decide)
  constructor
  · rw [h.1]
    rfl
  · rfl

/-- C3: in the approve/deny decision path, the stored transition back to
RUNNING is committed before the decision gate is signalled: in every
intermediate shared state of `_process_approval_decision` (starting from a
closed gate and a WAITING_APPROVAL session), if the gate is open then
re-reading the session yields a record whose status is RUNNING — never the
stale WAITING_APPROVAL. -/
theorem decision_commits_running_before_gate
    (s0 : SharedState) (sid : String) (approved : Bool) (feedback : Option String)
    (s : Session)
    (hgate : s0.gateOpen = false)
    (hs : get_session s0.store sid = .ok s)
    (hw : s.status = .waiting_approval) :
    ∀ st ∈ (process_approval_decision s0 sid approved feedback).2,
      st.gateOpen = true →
      ∃ s2, get_session st.store sid = .ok s2 ∧ s2.status = .running ∧
        s2.status ≠ .waiting_approval := by
  intro st hst hopen
  unfold process_approval_decision at hst
  rw [hs] at hst
  simp only [hw, if_true] at hst
  rw [update_session_status_spec s0.store sid .running none none s hs
    (by rw [hw]; rfl)] at hst
  have hget : get_session
      (store_write s0.store sid (updatedSession s .running none none)) sid
      = .ok (updatedSession s .running none none) :=
    get_session_store_write s0.store sid s _ hs
  have hrun : (updatedSession s .running none none).status = .running :=
    updatedSession_status s .running none none
  by_cases hp : (process_decision s0.handler sid approved feedback).1 = true
  · simp only [hp, if_true] at hst
    rcases List.mem_pair.mp hst with rfl | rfl
    · rw [hgate] at hopen
      exact absurd hopen (by simp)
    · exact ⟨updatedSession s .running none none, hget, hrun, by rw [hrun]; decide⟩
  · have hp' : (process_decision s0.handler sid approved feedback).1 = false := by
      revert hp
      cases (process_decision s0.handler sid approved feedback).1 <;> simp
    simp only [hp', Bool.false_eq_true, if_false] at hst
    rcases List.mem_pair.mp hst with rfl | rfl
    · rw [hgate] at hopen
      exact absurd hopen (by simp)
    · simp only [hgate, hp', Bool.or_self] at hopen
      exact absurd hopen (by simp)

/-- Witness for C3: the concrete ordering scenario — a WAITING_APPROVAL
session with a queued request is approved; in the final intermediate
state, where the gate is open, the re-read session's status is RUNNING. -/
theorem decision_commits_running_before_gate_witness :
    ((process_approval_decision exampleShared "s1" true
        (some "looks good")).2.getLastD exampleShared).gateOpen = true ∧
    (get_session ((process_approval_decision exampleShared "s1" true
        (some "looks good")).2.getLastD exampleShared).store "s1").toOption.map
      Session.status = some .running := by
  have happ := decision_commits_running_before_gate exampleShared "s1" true
    (some "looks good") exampleWaPayloadSession rfl (by rfl) rfl
  have hmem : ((process_approval_decision exampleShared "s1" true
      (some "looks good")).2.getLastD exampleShared)
      ∈ (process_approval_decision exampleShared "s1" true (some "looks good")).2 := by
    decide
  have hopen : ((process_approval_decision exampleShared "s1" true
      (some "looks good")).2.getLastD exampleShared).gateOpen = true := by
    decide
  obtain ⟨s2, hget, hrun, _⟩ := happ _ hmem hopen
  refine ⟨hopen, ?_⟩
  rw [hget]
  simp [Except.toOption, hrun]

/-- C4 counterexample: the claim characterizes auto-approval of a non-auto
Bash rule as "the split yields only segments that each match a pattern" —
a condition that holds vacuously for a command whose split yields no
non-empty segment. For the rule whose single pattern `*` matches every
segment and the command `";"` (likewise the empty command), every segment
of the split matches, yet the code still requires approval:
`matches_pattern` returns false when no non-empty segment remains. -/
theorem requires_approval_bash_iff_counterexample :
    bashClaimAllSegmentsMatch starRule ";" = true ∧
    bashClaimAllSegmentsMatch starRule "" = true ∧
    starRule.auto_approve = false ∧
    requires_approval [("Bash", starRule)] "Bash" [("command", ";")] = true ∧
    requires_approval [("Bash", starRule)] "Bash" [("command", "")] = true := by
  refine ⟨by decide, by decide, by decide, by decide, by decide⟩

/-- C4 (amended): `requires_approval` returns true for every tool absent
from the rule set and false for every tool whose rule is auto-approve; for
the Bash tool with a non-auto rule it returns false exactly when the
command's compound split yields at least one non-empty segment and every
segment matches one of the rule's glob patterns (an empty command, a
command of only separators, or a rule with no patterns forces approval);
and for every other tool with a non-auto rule it returns true regardless
of the input. -/
theorem requires_approval_amended :
    (∀ (rules : List (String × ApprovalRule)) (tn : String) (ti : ToolInput),
       List.lookup tn rules = none → requires_approval rules tn ti = true) ∧
    (∀ (rules : List (String × ApprovalRule)) (tn : String) (ti : ToolInput)
       (rule : ApprovalRule),
       List.lookup tn rules = some rule → rule.auto_approve = true →
       requires_approval rules tn ti = false) ∧
    (∀ (rules : List (String × ApprovalRule)) (ti : ToolInput) (rule : ApprovalRule),
       List.lookup "Bash" rules = some rule → rule.auto_approve = false →
       (requires_approval rules "Bash" ti = false ↔
         (shellSegments (ti.getD "command" "") ≠ [] ∧
          (shellSegments (ti.getD "command" "")).all
            (fun seg => rule.matchesAnyPattern seg) = true))) ∧
    (∀ (rules : List (String × ApprovalRule)) (tn : String) (ti : ToolInput)
       (rule : ApprovalRule),
       List.lookup tn rules = some rule → rule.auto_approve = false →
       tn ≠ "Bash" → requires_approval rules tn ti = true) := by
  refine ⟨?_, ?_, ?_, ?_⟩
  · intro rules tn ti h
    unfold requires_approval
    rw [h]
  · intro rules tn ti rule h hauto
    unfold requires_approval
    rw [h]
    dsimp only
    rw [if_pos hauto]
  · intro rules ti rule hlk hauto
    unfold requires_approval
    rw [hlk]
    dsimp only
    rw [if_neg (by simp [hauto])]
    by_cases hpe : rule.patterns.isEmpty = true
    · rw [if_neg (by simp [hpe])]
      constructor
      · intro h
        exact absurd h (by simp)
      · rintro ⟨hne, hall⟩
        exfalso
        rcases hsegs : shellSegments (ti.getD "command" "") with _ | ⟨seg, segs⟩
        · exact hne hsegs
        · rw [hsegs] at hall
          simp only [List.all_cons, Bool.and_eq_true] at hall
          have hm := hall.1
          unfold ApprovalRule.matchesAnyPattern at hm
          rw [List.isEmpty_iff.mp hpe] at hm
          simp at hm
    · have hcond : ("Bash" == "Bash" && !rule.patterns.isEmpty) = true := by
        simp only [Bool.and_eq_true, beq_self_eq_true, Bool.not_eq_true', true_and]
        revert hpe
        cases rule.patterns.isEmpty <;> simp
      rw [if_pos hcond]
      unfold ApprovalRule.matches_pattern
      rw [if_neg hpe]
      by_cases hse : (shellSegments (ti.getD "command" "")).isEmpty = true
      · rw [if_pos hse]
        simp [List.isEmpty_iff.mp hse]
      · rw [if_neg hse]
        have hne : shellSegments (ti.getD "command" "") ≠ [] := by
          revert hse
          rcases shellSegments (ti.getD "command" "") with _ | _ <;> simp
        cases hall : (shellSegments (ti.getD "command" "")).all
            (fun seg => rule.matchesAnyPattern seg)
        · simp
        · simp [hne]
  · intro rules tn ti rule h hauto hnb
    unfold requires_approval
    rw [h]
    dsimp only
    rw [if_neg (by simp [hauto]), if_neg (by simp [hnb])]

/-- Witness for C4 (amended): the defaults auto-approve
`"git status && ls -la"`, require approval for `"git status && rm -rf /"`
and for a `Write`, and approve a `Read` without asking. -/
theorem requires_approval_amended_witness :
    requires_approval DEFAULT_RULES "Bash"
        [("command", "git status && ls -la")] = false ∧
    requires_approval DEFAULT_RULES "Bash"
        [("command", "git status && rm -rf /")] = true ∧
    requires_approval DEFAULT_RULES "Write" [("file_path", "x.py")] = true ∧
    requires_approval DEFAULT_RULES "Read" [] = false ∧
    requires_approval DEFAULT_RULES "Frobnicate" [] = true := by
  have hbash := requires_approval_amended.2.2.1 DEFAULT_RULES
    [("command", "git status && ls -la")] defaultBashRule (by decide) (by decide)
  refine ⟨hbash.mpr (by decide), by decide, ?_, ?_, ?_⟩
  · exact requires_approval_amended.2.2.2 DEFAULT_RULES "Write"
      [("file_path", "x.py")] defaultWriteRule (by decide) (by decide) (by decide)
  · exact requires_approval_amended.2.1 DEFAULT_RULES "Read" [] defaultReadRule
      (by decide) (by decide)
  · exact requires_approval_amended.1 DEFAULT_RULES "Frobnicate" [] (by decide)

/-- C10: for every Bash command, `generate_diff` returns the literal
command string as the diff, no stats, tier "inline" with `truncated`
false (regardless of size — Bash "diffs" are never truncated),
`total_bytes` equal to the command's UTF-8 byte length and `total_lines`
equal to its newline count plus one. -/
theorem bash_diff_never_truncated :
    ∀ (ti : ToolInput),
      generate_diff "Bash" ti = generate_bash_diff (ti.getD "command" "") ∧
      ∀ (command : String),
        (generate_bash_diff command).diff = some command ∧
        (generate_bash_diff command).diff_stats = none ∧
        (generate_bash_diff command).tier = .inline ∧
        (generate_bash_diff command).truncated = false ∧
        (generate_bash_diff command).total_bytes = utf8Len command ∧
        (generate_bash_diff command).total_lines = countNewlines command + 1 := by
  intro ti
  exact ⟨rfl, fun command => ⟨rfl, rfl, rfl, rfl, rfl, rfl⟩⟩

theorem foldl_utf8_replicate (n : Nat) (acc : Nat) :
    (List.replicate n 'a').foldl (fun m c => m + c.utf8Size) acc = acc + n := by
  induction n generalizing acc with
  | zero => rfl
  | succ k ih =>
      rw [List.replicate_succ, List.foldl_cons, ih]
      have : 'a'.utf8Size = 1 := rfl
      omega

theorem utf8Len_bigLine : utf8Len bigLine = 100001 := by
  unfold utf8Len bigLine
  exact foldl_utf8_replicate 100001 0

theorem no_newline_bigLine : '\n' ∉ bigLine.data := by
  unfold bigLine
  intro h
  have := List.eq_of_mem_replicate h
  exact absurd this (by decide)

theorem splitKeepEndsGo_no_newline (cs : List Char) (acc : List Char)
    (h : '\n' ∉ cs) :
    splitKeepEnds.splitKeepEndsGo cs acc =
      (if acc = [] ∧ cs = [] then [] else [acc.reverse ++ cs]) := by
  induction cs generalizing acc with
  | nil =>
      unfold splitKeepEnds.splitKeepEndsGo
      by_cases ha : acc = []
      · simp [ha]
      · simp [ha, List.isEmpty_iff]
  | cons c rest ih =>
      have hc : c ≠ '\n' := fun he => h (he ▸ List.mem_cons_self c rest)
      have hrest : '\n' ∉ rest := fun hm => h (List.mem_cons_of_mem c hm)
      have hstep : splitKeepEnds.splitKeepEndsGo (c :: rest) acc
          = splitKeepEnds.splitKeepEndsGo rest (c :: acc) := by
        conv_lhs => rw [splitKeepEnds.splitKeepEndsGo]
        rw [if_neg hc]
      rw [hstep, ih (c :: acc) hrest]
      simp

theorem splitKeepEnds_bigLine : splitKeepEnds bigLine = [bigLine] := by
  unfold splitKeepEnds
  rw [splitKeepEndsGo_no_newline bigLine.data [] no_newline_bigLine]
  have hne : bigLine.data ≠ [] := by
    unfold bigLine
    intro h
    have := congrArg List.length h
    simp only [List.length_replicate, List.length_nil] at this
    omega
  rw [if_neg (by simp [hne])]
  rfl

theorem marker_not_in_bigLine : ¬ List.IsInfix "lines omitted".data bigLine.data := by
  intro h
  have hmem : 'l' ∈ "lines omitted".data := by decide
  have := h.subset hmem
  unfold bigLine at this
  have := List.eq_of_mem_replicate this
  exact absurd this (by decide)

theorem finalize_diff_bigLine :
    finalize_diff [bigLine] .low =
      { diff := some bigLine
        diff_stats := some (compute_stats [bigLine])
        risk_level := some RiskLevel.low
        tier := .truncated
        total_bytes := 100001
        total_lines := countNewlines bigLine
        truncated := true } := by
  have hjoin : String.join [bigLine] = bigLine := rfl
  unfold finalize_diff
  rw [if_neg (by simp)]
  simp only [hjoin, utf8Len_bigLine]
  rw [if_neg (by unfold INLINE_MAX_BYTES; omega)]
  have hprev : build_preview bigLine (countNewlines bigLine) = bigLine := by
    unfold build_preview
    rw [splitKeepEnds_bigLine]
    rw [if_pos (by unfold PREVIEW_HEAD_LINES PREVIEW_TAIL_LINES; simp)]
  rw [hprev]

/-- C7 counterexample: a Write-style diff consisting of one 100,001-byte
line exceeds the inline threshold, so its tier is "truncated" — but the
returned diff is the untouched full text: it is not a head+tail preview
and contains no "lines omitted" marker (`_build_preview` returns the text
whole whenever it has at most 500 lines, however many bytes it weighs). -/
theorem diff_truncation_claim_counterexample :
    (finalize_diff [bigLine] .low).tier = .truncated ∧
    (finalize_diff [bigLine] .low).truncated = true ∧
    (finalize_diff [bigLine] .low).total_bytes = 100001 ∧
    (finalize_diff [bigLine] .low).diff = some bigLine ∧
    ¬ List.IsInfix "lines omitted".data bigLine.data := by
  rw [finalize_diff_bigLine]
  exact ⟨rfl, rfl, rfl, rfl, marker_not_in_bigLine⟩

/-- C7 (amended): for every generated file diff, `total_bytes` and
`total_lines` report the full diff's byte and newline counts and the
addition/deletion stats are computed from the full diff, in both tiers; a
diff of at most 100,000 UTF-8 bytes is tier "inline" and carried in full;
above the threshold the tier is "truncated" and the diff is the
`_build_preview` text — the first 250 and last 250 lines joined by the
"N lines omitted" marker whenever the full text has more than 500 lines,
and (the case the counterexample exhibits) the full text itself when it
does not. -/
theorem diff_truncation_amended (diff_lines : List String) (risk : RiskLevel)
    (full_text : String)
    (hne : diff_lines ≠ [])
    (hft : full_text = String.join diff_lines) :
    (finalize_diff diff_lines risk).total_bytes = utf8Len full_text ∧
    (finalize_diff diff_lines risk).total_lines = countNewlines full_text ∧
    (finalize_diff diff_lines risk).diff_stats = some (compute_stats diff_lines) ∧
    (finalize_diff diff_lines risk).risk_level = some risk ∧
    (utf8Len full_text ≤ INLINE_MAX_BYTES →
       (finalize_diff diff_lines risk).tier = .inline ∧
       (finalize_diff diff_lines risk).truncated = false ∧
       (finalize_diff diff_lines risk).diff = some full_text) ∧
    (INLINE_MAX_BYTES < utf8Len full_text →
       (finalize_diff diff_lines risk).tier = .truncated ∧
       (finalize_diff diff_lines risk).truncated = true ∧
       (finalize_diff diff_lines risk).diff
         = some (build_preview full_text (countNewlines full_text)) ∧
       (PREVIEW_HEAD_LINES + PREVIEW_TAIL_LINES < (splitKeepEnds full_text).length →
          build_preview full_text (countNewlines full_text)
            = String.join ((splitKeepEnds full_text).take PREVIEW_HEAD_LINES)
              ++ ("\n... ("
                  ++ toString ((splitKeepEnds full_text).length
                        - PREVIEW_HEAD_LINES - PREVIEW_TAIL_LINES)
                  ++ " lines omitted) ...\n\n")
              ++ String.join ((splitKeepEnds full_text).drop
                    ((splitKeepEnds full_text).length - PREVIEW_TAIL_LINES))) ∧
       ((splitKeepEnds full_text).length ≤ PREVIEW_HEAD_LINES + PREVIEW_TAIL_LINES →
          build_preview full_text (countNewlines full_text) = full_text)) := by
  subst hft
  unfold finalize_diff
  rw [if_neg (by simp [List.isEmpty_iff, hne])]
  by_cases hb : utf8Len (String.join diff_lines) ≤ INLINE_MAX_BYTES
  · rw [if_pos hb]
    refine ⟨rfl, rfl, rfl, rfl, fun _ => ⟨rfl, rfl, rfl⟩, fun hgt => absurd hb (by omega)⟩
  · rw [if_neg hb]
    refine ⟨rfl, rfl, rfl, rfl, fun hle => absurd hle hb, fun _ => ⟨rfl, rfl, rfl, ?_, ?_⟩⟩
    · intro hlines
      unfold build_preview
      rw [if_neg (by omega)]
    · intro hlines
      unfold build_preview
      rw [if_pos hlines]

/-- Witness for C7 (amended): a one-line diff below the threshold is
inline, carried whole, with stats from the full diff. -/
theorem diff_truncation_amended_witness :
    (finalize_diff ["+x\n"] .low).total_bytes = utf8Len "+x\n" ∧
    (finalize_diff ["+x\n"] .low).tier = .inline ∧
    (finalize_diff ["+x\n"] .low).diff = some "+x\n" ∧
    (finalize_diff ["+x\n"] .low).diff_stats = some (compute_stats ["+x\n"]) := by
  have h := diff_truncation_amended ["+x\n"] .low "+x\n" (by decide) (by rfl)
  have h5 := h.2.2.2.2.1 (by decide)
  exact ⟨h.1, h5.1, h5.2.2, h.2.2.1⟩

/-! ### Lemmas about the regex engine, towards claim C8.

`assess_bash_risk` returns the full-string risk when the compound split is
trivial, while the claim's formula additionally folds in the stripped
command's own classification; the two agree because stripping surrounding
whitespace can only lose regex matches, never create them. The lemmas
below establish that: a match survives appending trailing whitespace, the
engine only inspects the preceding character through its word-ness, and a
match of a suffix yields a match of the whole string. -/

theorem starPositions_append (p : Char → Bool) (t : List Char) :
    ∀ (prev : Option Char) (s : List Char) (pr : Option Char) (rest : List Char),
      (pr, rest) ∈ starPositions p prev s →
      (pr, rest ++ t) ∈ starPositions p prev (s ++ t) := by
  intro prev s
  induction s generalizing prev with
  | nil =>
      intro pr rest h
      simp only [starPositions, List.mem_singleton] at h
      rcases h with ⟨rfl, rfl⟩
      cases t with
      | nil => simp [starPositions]
      | cons c cs => simp [starPositions]
  | cons c cs ih =>
      intro pr rest h
      simp only [starPositions, List.mem_cons] at h
      rcases h with h | h
      · rcases h with ⟨rfl, rfl⟩
        simp [starPositions]
      · cases hp : p c
        · rw [hp] at h
          simp at h
        · rw [hp] at h
          simp only [if_true] at h
          have := ih (some c) pr rest h
          simp only [List.cons_append, starPositions, hp, if_true, List.mem_cons]
          exact Or.inr this

theorem runRe_append (t : List Char) (ht : wordOpt t.head? = false) :
    ∀ (r : Re) (prev : Option Char) (s : List Char) (pr : Option Char)
      (rest : List Char),
      (pr, rest) ∈ runRe r prev s → (pr, rest ++ t) ∈ runRe r prev (s ++ t) := by
  intro r
  induction r with
  | eps =>
      intro prev s pr rest h
      simp only [runRe, List.mem_singleton] at h
      rcases h with ⟨rfl, rfl⟩
      simp [runRe]
  | tok p =>
      intro prev s pr rest h
      cases s with
      | nil => simp [runRe] at h
      | cons c cs =>
          simp only [runRe] at h
          cases hp : p c
          · rw [hp] at h; simp at h
          · rw [hp] at h
            simp only [if_true, List.mem_singleton] at h
            rcases h with ⟨rfl, rfl⟩
            simp [runRe, hp]
  | seq a b iha ihb =>
      intro prev s pr rest h
      simp only [runRe, List.mem_flatMap] at h ⊢
      rcases h with ⟨q, hq, hb⟩
      exact ⟨(q.1, q.2 ++ t), iha prev s q.1 q.2 (by simpa using hq),
             ihb q.1 q.2 pr rest hb⟩
  | alt a b iha ihb =>
      intro prev s pr rest h
      simp only [runRe, List.mem_append] at h ⊢
      rcases h with h | h
      · exact Or.inl (iha prev s pr rest h)
      · exact Or.inr (ihb prev s pr rest h)
  | star p =>
      intro prev s pr rest h
      exact starPositions_append p t prev s pr rest h
  | plus p =>
      intro prev s pr rest h
      cases s with
      | nil => simp [runRe] at h
      | cons c cs =>
          simp only [runRe] at h
          cases hp : p c
          · rw [hp] at h; simp at h
          · rw [hp] at h
            simp only [if_true] at h
            have := starPositions_append p t (some c) cs pr rest h
            simp only [List.cons_append, runRe, hp, if_true]
            exact this
  | wb =>
      intro prev s pr rest h
      simp only [runRe] at h
      cases hb : isWordBoundary prev s
      · rw [hb] at h; simp at h
      · rw [hb] at h
        simp only [if_true, List.mem_singleton] at h
        rcases h with ⟨rfl, rfl⟩
        have hb2 : isWordBoundary prev (s ++ t) = true := by
          cases s with
          | nil =>
              rw [List.nil_append]
              unfold isWordBoundary at hb ⊢
              rw [ht]
              have hnil : wordOpt (List.head? ([] : List Char)) = false := rfl
              rw [hnil] at hb
              exact hb
          | cons c cs =>
              unfold isWordBoundary at hb ⊢
              simpa using hb
        simp [runRe, hb2]

theorem starPositions_head_tail (p : Char → Bool) (p1 p2 : Option Char)
    (s : List Char) :
    ∃ tl, starPositions p p1 s = (p1, s) :: tl ∧
          starPositions p p2 s = (p2, s) :: tl := by
  cases s with
  | nil => exact ⟨[], rfl, rfl⟩
  | cons c cs =>
      exact ⟨if p c then starPositions p (some c) cs else [], rfl, rfl⟩

theorem runRe_congr (r : Re) :
    ∀ (p1 p2 : Option Char), wordOpt p1 = wordOpt p2 →
    ∀ (s : List Char) (pr : Option Char) (rest : List Char),
      (pr, rest) ∈ runRe r p1 s →
      ∃ pr2, (pr2, rest) ∈ runRe r p2 s ∧ wordOpt pr2 = wordOpt pr := by
  induction r with
  | eps =>
      intro p1 p2 heq s pr rest h
      simp only [runRe, List.mem_singleton] at h
      rcases h with ⟨rfl, rfl⟩
      exact ⟨p2, by simp [runRe], heq.symm⟩
  | tok p =>
      intro p1 p2 heq s pr rest h
      cases s with
      | nil => simp [runRe] at h
      | cons c cs =>
          simp only [runRe] at h
          cases hp : p c
          · rw [hp] at h; simp at h
          · rw [hp] at h
            simp only [if_true, List.mem_singleton] at h
            rcases h with ⟨rfl, rfl⟩
            exact ⟨some c, by simp [runRe, hp], rfl⟩
  | seq a b iha ihb =>
      intro p1 p2 heq s pr rest h
      simp only [runRe, List.mem_flatMap] at h ⊢
      rcases h with ⟨q, hq, hb⟩
      rcases iha p1 p2 heq s q.1 q.2 (by simpa using hq) with ⟨q2, hq2, hw2⟩
      rcases ihb q.1 q2 hw2.symm q.2 pr rest hb with ⟨pr2, hpr2, hwpr⟩
      exact ⟨pr2, ⟨(q2, q.2), hq2, hpr2⟩, hwpr⟩
  | alt a b iha ihb =>
      intro p1 p2 heq s pr rest h
      simp only [runRe, List.mem_append] at h ⊢
      rcases h with h | h
      · rcases iha p1 p2 heq s pr rest h with ⟨pr2, hm, hw⟩
        exact ⟨pr2, Or.inl hm, hw⟩
      · rcases ihb p1 p2 heq s pr rest h with ⟨pr2, hm, hw⟩
        exact ⟨pr2, Or.inr hm, hw⟩
  | star p =>
      intro p1 p2 heq s pr rest h
      rcases starPositions_head_tail p p1 p2 s with ⟨tl, h1, h2⟩
      simp only [runRe] at h ⊢
      rw [h1] at h
      rw [h2]
      rcases List.mem_cons.mp h with h | h
      · rcases h with ⟨rfl, rfl⟩
        exact ⟨p2, List.mem_cons_self _ _, heq.symm⟩
      · exact ⟨pr, List.mem_cons_of_mem _ h, rfl⟩
  | plus p =>
      intro p1 p2 heq s pr rest h
      cases s with
      | nil => simp [runRe] at h
      | cons c cs =>
          simp only [runRe] at h ⊢
          exact ⟨pr, h, rfl⟩
  | wb =>
      intro p1 p2 heq s pr rest h
      simp only [runRe] at h
      have hbeq : isWordBoundary p1 s = isWordBoundary p2 s := by
        unfold isWordBoundary
        rw [heq]
      cases hb : isWordBoundary p1 s
      · rw [hb] at h; simp at h
      · rw [hb] at h
        simp only [if_true, List.mem_singleton] at h
        rcases h with ⟨rfl, rfl⟩
        exact ⟨p2, by simp [runRe, ← hbeq, hb], heq.symm⟩

theorem runRe_isEmpty_congr (r : Re) (p1 p2 : Option Char)
    (heq : wordOpt p1 = wordOpt p2) (s : List Char) :
    (runRe r p1 s).isEmpty = (runRe r p2 s).isEmpty := by
  cases e1 : (runRe r p1 s).isEmpty <;> cases e2 : (runRe r p2 s).isEmpty
  · rfl
  · exfalso
    rcases List.exists_mem_of_ne_nil _ (by simpa [List.isEmpty_iff] using e1)
      with ⟨⟨pr, rest⟩, hm⟩
    rcases runRe_congr r p1 p2 heq s pr rest hm with ⟨pr2, hm2, _⟩
    rw [List.isEmpty_iff.mp e2] at hm2
    simp at hm2
  · exfalso
    rcases List.exists_mem_of_ne_nil _ (by simpa [List.isEmpty_iff] using e2)
      with ⟨⟨pr, rest⟩, hm⟩
    rcases runRe_congr r p2 p1 heq.symm s pr rest hm with ⟨pr2, hm2, _⟩
    rw [List.isEmpty_iff.mp e1] at hm2
    simp at hm2
  · rfl

theorem searchAux_congr (r : Re) (p1 p2 : Option Char)
    (heq : wordOpt p1 = wordOpt p2) (s : List Char) :
    searchAux r p1 s = searchAux r p2 s := by
  cases s with
  | nil =>
      unfold searchAux
      rw [runRe_isEmpty_congr r p1 p2 heq]
  | cons c cs =>
      unfold searchAux
      rw [runRe_isEmpty_congr r p1 p2 heq]

theorem searchAux_of_runRe (r : Re) (prev : Option Char) (s : List Char)
    (h : (runRe r prev s).isEmpty = false) : searchAux r prev s = true := by
  cases s with
  | nil =>
      unfold searchAux
      rw [h]
      rfl
  | cons c cs =>
      unfold searchAux
      rw [h]
      rfl

theorem searchAux_append (r : Re) (t : List Char) (ht : wordOpt t.head? = false) :
    ∀ (s : List Char) (prev : Option Char),
      searchAux r prev s = true → searchAux r prev (s ++ t) = true := by
  intro s
  induction s with
  | nil =>
      intro prev h
      unfold searchAux at h
      rcases List.exists_mem_of_ne_nil _
        (by simpa [List.isEmpty_iff] using h) with ⟨⟨pr, rest⟩, hm⟩
      have hm2 := runRe_append t ht r prev [] pr rest hm
      rw [List.nil_append] at hm2
      rw [List.nil_append]
      apply searchAux_of_runRe
      cases e : (runRe r prev t).isEmpty
      · rfl
      · rw [List.isEmpty_iff.mp e] at hm2
        simp at hm2
  | cons c cs ih =>
      intro prev h
      unfold searchAux at h
      rcases Bool.or_eq_true_iff.mp h with h1 | h2
      · rcases List.exists_mem_of_ne_nil _
          (by simpa [List.isEmpty_iff] using h1) with ⟨⟨pr, rest⟩, hm⟩
        have hm2 := runRe_append t ht r prev (c :: cs) pr rest hm
        apply searchAux_of_runRe
        cases e : (runRe r prev ((c :: cs) ++ t)).isEmpty
        · rfl
        · rw [List.isEmpty_iff.mp e] at hm2
          simp at hm2
      · have := ih (some c) h2
        simp only [List.cons_append]
        unfold searchAux
        rw [this]
        simp

theorem searchAux_of_append_left (r : Re) (v : List Char) :
    ∀ (u : List Char) (prev : Option Char),
      searchAux r (prevAfter prev u) v = true → searchAux r prev (u ++ v) = true := by
  intro u
  induction u with
  | nil =>
      intro prev h
      simpa [prevAfter] using h
  | cons a u ih =>
      intro prev h
      have hpa : prevAfter prev (a :: u) = prevAfter (some a) u := by
        cases u with
        | nil => rfl
        | cons b u2 => rfl
      rw [hpa] at h
      have := ih (some a) h
      simp only [List.cons_append]
      unfold searchAux
      rw [this]
      simp

theorem wordChar_of_ws (c : Char) (h : isPyWs c = true) : wordChar c = false := by
  unfold isPyWs at h
  simp only [Bool.or_eq_true, beq_iff_eq] at h
  rcases h with ((((h | h) | h) | h) | h) | h <;> subst h <;> decide

theorem pyStrip_decomp (s : String) :
    ∃ pre suf, s.data = pre ++ (pyStrip s).data ++ suf ∧
      (∀ c ∈ pre, isPyWs c = true) ∧ (∀ c ∈ suf, isPyWs c = true) := by
  refine ⟨s.data.takeWhile isPyWs,
          ((s.data.dropWhile isPyWs).reverse.takeWhile isPyWs).reverse, ?_, ?_, ?_⟩
  · have h1 : s.data.takeWhile isPyWs ++ s.data.dropWhile isPyWs = s.data :=
      List.takeWhile_append_dropWhile isPyWs s.data
    have h2 : (s.data.dropWhile isPyWs).reverse.takeWhile isPyWs
        ++ (s.data.dropWhile isPyWs).reverse.dropWhile isPyWs
        = (s.data.dropWhile isPyWs).reverse :=
      List.takeWhile_append_dropWhile isPyWs _
    have h3 := congrArg List.reverse h2
    rw [List.reverse_append, List.reverse_reverse] at h3
    have hcore : (pyStrip s).data
        = ((s.data.dropWhile isPyWs).reverse.dropWhile isPyWs).reverse := rfl
    rw [hcore, List.append_assoc, h3, h1]
  · intro c hc
    exact List.mem_takeWhile_imp hc
  · intro c hc
    rw [List.mem_reverse] at hc
    exact List.mem_takeWhile_imp hc

theorem reSearch_pyStrip (r : Re) (s : String)
    (h : reSearch r (pyStrip s) = true) : reSearch r s = true := by
  rcases pyStrip_decomp s with ⟨pre, suf, hdec, hpre, hsuf⟩
  unfold reSearch at h ⊢
  have hsufhead : wordOpt suf.head? = false := by
    cases suf with
    | nil => rfl
    | cons c cs =>
        simp only [List.head?_cons]
        unfold wordOpt
        exact wordChar_of_ws c (hsuf c (List.mem_cons_self c cs))
  have h1 : searchAux r none ((pyStrip s).data ++ suf) = true :=
    searchAux_append r suf hsufhead _ none h
  have hword : wordOpt (prevAfter none pre) = wordOpt none := by
    cases hl : pre.getLast? with
    | none =>
        unfold prevAfter
        rw [hl]
    | some c =>
        have hc : c ∈ pre := by
          rcases List.mem_getLast?_eq_getLast (show c ∈ pre.getLast? from hl)
            with ⟨hne, hcx⟩
          rw [hcx]
          exact List.getLast_mem hne
        unfold prevAfter
        rw [hl]
        show wordOpt (some c) = wordOpt none
        unfold wordOpt
        exact wordChar_of_ws c (hpre c hc)
  have h2 : searchAux r (prevAfter none pre) ((pyStrip s).data ++ suf) = true := by
    rw [searchAux_congr r (prevAfter none pre) none hword]
    exact h1
  have h3 := searchAux_of_append_left r ((pyStrip s).data ++ suf) pre none h2
  rw [hdec, List.append_assoc]
  exact h3

theorem RISK_ORDER_assess_pyStrip (s : String) :
    RISK_ORDER (assess_single_command (pyStrip s))
      ≤ RISK_ORDER (assess_single_command s) := by
  unfold assess_single_command
  by_cases hd : dangerousPatterns.any (fun r => reSearch r (pyStrip s)) = true
  · have hd2 : dangerousPatterns.any (fun r => reSearch r s) = true := by
      rcases List.any_eq_true.mp hd with ⟨r, hr, hsr⟩
      exact List.any_eq_true.mpr ⟨r, hr, reSearch_pyStrip r s hsr⟩
    rw [if_pos hd, if_pos hd2]
  · rw [if_neg hd]
    by_cases hm : mediumRiskPatterns.any (fun r => reSearch r (pyStrip s)) = true
    · have hm2 : mediumRiskPatterns.any (fun r => reSearch r s) = true := by
        rcases List.any_eq_true.mp hm with ⟨r, hr, hsr⟩
        exact List.any_eq_true.mpr ⟨r, hr, reSearch_pyStrip r s hsr⟩
      rw [if_pos hm]
      by_cases hds : dangerousPatterns.any (fun r => reSearch r s) = true
      · rw [if_pos hds]
        decide
      · rw [if_neg hds, if_pos hm2]
    · rw [if_neg hm]
      exact Nat.zero_le _

theorem higher_risk_high (b : RiskLevel) : higher_risk .high b = .high := by
  cases b <;> rfl

theorem foldl_higher_risk_high : ∀ (l : List RiskLevel),
    l.foldl higher_risk .high = .high := by
  intro l
  induction l with
  | nil => rfl
  | cons x xs ih =>
      rw [List.foldl_cons, higher_risk_high]
      exact ih

theorem assessSegments_eq_foldl : ∀ (segs : List String) (m : RiskLevel),
    assessSegments m segs
      = (((segs.map pyStrip).filter (fun s => s != "")).map
          assess_single_command).foldl higher_risk m := by
  intro segs
  induction segs with
  | nil => intro m; rfl
  | cons seg rest ih =>
      intro m
      simp only [assessSegments]
      by_cases hs : pyStrip seg = ""
      · rw [if_pos hs]
        have hf : (pyStrip seg != "") = false := by simp [bne, hs]
        simp only [List.map_cons, List.filter_cons, hf, Bool.false_eq_true, if_false]
        exact ih m
      · rw [if_neg hs]
        have hf : (pyStrip seg != "") = true := by simp [bne, hs]
        simp only [List.map_cons, List.filter_cons, hf, if_true, List.foldl_cons]
        by_cases hh : higher_risk m (assess_single_command (pyStrip seg))
            = RiskLevel.high
        · rw [if_pos hh, hh, foldl_higher_risk_high]
        · rw [if_neg hh]
          exact ih _

theorem compoundSplitGo_length_pos : ∀ (cs acc : List Char),
    1 ≤ (compoundSplitGo cs acc).length := by
  intro cs acc
  induction cs, acc using compoundSplitGo.induct with
  | case1 acc => simp [compoundSplitGo]
  | case2 rest acc ih => simp [compoundSplitGo]
  | case3 rest acc ih => simp [compoundSplitGo]
  | case4 rest acc ih => simp [compoundSplitGo]
  | case5 c rest acc h1 h2 h3 ih =>
      rw [compoundSplitGo]
      · exact ih
      · exact h1
      · exact h2
      · exact h3

theorem compoundSplitGo_singleton : ∀ (cs acc : List Char),
    (compoundSplitGo cs acc).length = 1 →
    compoundSplitGo cs acc = [acc.reverse ++ cs] := by
  intro cs acc
  induction cs, acc using compoundSplitGo.induct with
  | case1 acc => intro _; simp [compoundSplitGo]
  | case2 rest acc ih =>
      intro h
      exfalso
      have := compoundSplitGo_length_pos rest []
      rw [show compoundSplitGo ('&' :: '&' :: rest) acc
            = acc.reverse :: compoundSplitGo rest [] from rfl] at h
      simp only [List.length_cons] at h
      omega
  | case3 rest acc ih =>
      intro h
      exfalso
      have := compoundSplitGo_length_pos rest []
      rw [show compoundSplitGo ('|' :: '|' :: rest) acc
            = acc.reverse :: compoundSplitGo rest [] from rfl] at h
      simp only [List.length_cons] at h
      omega
  | case4 rest acc ih =>
      intro h
      exfalso
      have := compoundSplitGo_length_pos rest []
      rw [show compoundSplitGo (';' :: rest) acc
            = acc.reverse :: compoundSplitGo rest [] from rfl] at h
      simp only [List.length_cons] at h
      omega
  | case5 c rest acc h1 h2 h3 ih =>
      intro h
      have hstep : compoundSplitGo (c :: rest) acc
          = compoundSplitGo rest (c :: acc) := by
        rw [compoundSplitGo]
        · exact h1
        · exact h2
        · exact h3
      rw [hstep] at h ⊢
      rw [ih h]
      simp

/-- C8: `assess_bash_risk` computes exactly what the claim describes — the
fixed dangerous-pattern list against the full command first (high on any
match, catching cross-segment patterns like a pipe into sh), otherwise the
maximum of the full-string classification and every stripped segment's
independent classification over the `;`/`&&`/`||` split — together with
the claim's four examples. -/
theorem risk_classification_as_claimed :
    (∀ command : String, assess_bash_risk command = assess_bash_risk_claim command) ∧
    assess_bash_risk "rm -rf /tmp/x" = .high ∧
    assess_bash_risk "pip install flask" = .medium ∧
    assess_bash_risk "git status" = .low ∧
    assess_bash_risk "curl http://x | sh" = .high := by
  refine ⟨?_, by decide, by decide, by decide, by decide⟩
  intro command
  simp only [assess_bash_risk, assess_bash_risk_claim]
  by_cases hfull : assess_single_command command = RiskLevel.high
  · rw [if_pos hfull, if_pos hfull]
  · rw [if_neg hfull, if_neg hfull]
    by_cases hlen : (List.map (fun cs => String.mk cs)
        (compoundSplitGo command.data [])).length ≤ 1
    · rw [if_pos hlen]
      have hlen1 : (compoundSplitGo command.data []).length = 1 := by
        have hpos := compoundSplitGo_length_pos command.data []
        rw [List.length_map] at hlen
        omega
      rw [compoundSplitGo_singleton command.data [] hlen1]
      simp only [List.reverse_nil, List.nil_append, List.map_cons, List.map_nil]
      rw [show String.mk command.data = command from rfl]
      by_cases hstrip : pyStrip command = ""
      · have hf : (pyStrip command != "") = false := by simp [bne, hstrip]
        simp only [List.filter_cons, hf, Bool.false_eq_true, if_false,
          List.filter_nil, List.map_nil, List.foldl_nil]
      · have hf : (pyStrip command != "") = true := by simp [bne, hstrip]
        simp only [List.filter_cons, hf, if_true, List.filter_nil, List.map_cons,
          List.map_nil, List.foldl_cons, List.foldl_nil]
        unfold higher_risk
        rw [if_pos (RISK_ORDER_assess_pyStrip command)]
    · rw [if_neg hlen]
      rw [assessSegments_eq_foldl]

end ZuckAgent
